import Mathlib

/-!
Verification of the two-pass assembler (sources: `pre_assembler.c`,
`macro_utils.c`, `first_pass.c`, `first_pass_utils.c`, `data_handling.c`,
`instruction_handling.c`, `second_pass.c`, `second_pass_utils.c`).

The C code is shallowly embedded: C strings become `List Char`, the
module-level globals (`ic`, `dc`, `error`, `was_reg`, `line_count`) and the
per-file tables become fields of an explicit state record that is threaded
through the translated functions, `unsigned char` stores are modelled by
`% 256`, and diagnostics (`report_error_pass`) are accumulated as a list of
(line, message) pairs.  Memory-allocation failure paths (`realloc`/`malloc`
returning NULL) and I/O write failures are outside the model: the embedded
functions correspond to the runs in which allocation and writing succeed.
-/

namespace Assembler

/-! ### Character and string helpers (ctype.h / string.h semantics) -/

/-- C `isspace` in the default locale. -/
def isSpaceC (c : Char) : Bool :=
  c = ' ' || c = '\t' || c = '\n' || c = '\x0b' || c = '\x0c' || c = '\r'

/-- C `isdigit`. -/
def isDigitC (c : Char) : Bool := '0' ≤ c && c ≤ '9'

/-- C `isalpha` (ASCII). -/
def isAlphaC (c : Char) : Bool := ('a' ≤ c && c ≤ 'z') || ('A' ≤ c && c ≤ 'Z')

/-- C `isalnum` (ASCII). -/
def isAlnumC (c : Char) : Bool := isDigitC c || isAlphaC c

/-- Shorthand: a Lean string literal as a C string (list of characters). -/
def cs (s : String) : List Char := s.toList

/-- `delete_white` (first_pass_utils.c): skip leading whitespace. -/
def deleteWhite (s : List Char) : List Char := s.dropWhile isSpaceC

/-- `copy_first_word` (first_pass_utils.c): copy the first run of
non-whitespace characters, up to `max_len - 1` characters. -/
def copyFirstWord (s : List Char) (maxLen : Nat) : List Char :=
  (s.takeWhile (fun c => !isSpaceC c)).take (maxLen - 1)

/-- `there_is_colon` (first_pass_utils.c): a ':' occurs before the first
whitespace character. -/
def thereIsColon : List Char → Bool
  | [] => false
  | c :: rest => if isSpaceC c then false else if c = ':' then true else thereIsColon rest

/-- Value of a list of decimal digit characters (most significant first). -/
def digitsVal : List Char → Nat → Nat
  | [], acc => acc
  | c :: rest, acc => digitsVal rest (acc * 10 + (c.toNat - 48))

/-- `strtol(s, &end, 10)`, successful case: skip whitespace, optional sign,
at least one digit; returns the value and the unconsumed suffix.  `none`
models the no-digits case, in which C leaves `end` at the start of `s` and
yields 0. -/
def parseLong? (s : List Char) : Option (Int × List Char) :=
  let t := s.dropWhile isSpaceC
  let (sign, t2) : Int × List Char :=
    match t with
    | '-' :: r => (-1, r)
    | '+' :: r => (1, r)
    | r => (1, r)
  let ds := t2.takeWhile isDigitC
  if ds.isEmpty then none
  else some (sign * (digitsVal ds 0 : Int), t2.dropWhile isDigitC)

/-- `strtol` including the failure convention (value 0, nothing consumed). -/
def parseLong (s : List Char) : Int × List Char :=
  match parseLong? s with
  | some p => p
  | none => (0, s)

/-- C `atoi`. -/
def atoiC (s : List Char) : Int := (parseLong s).1

/-- One `strtok` step for a delimiter set: skip leading delimiters, return
the next token and the rest, or `none` at the end of the string. -/
def nextTok (delims : List Char) (s : List Char) : Option (List Char × List Char) :=
  let t := s.dropWhile (fun c => delims.contains c)
  match t with
  | [] => none
  | _ => some (t.takeWhile (fun c => !delims.contains c),
               t.dropWhile (fun c => !delims.contains c))

/-- Fuel-driven worker for `tokenize` (the fuel is an upper bound on the
number of tokens; structural recursion keeps the function kernel-reducible). -/
def tokenizeGo (delims : List Char) : Nat → List Char → List (List Char)
  | 0, _ => []
  | fuel + 1, s =>
    match nextTok delims s with
    | none => []
    | some (tok, rest) => tok :: tokenizeGo delims fuel rest

/-- The full token sequence produced by repeated `strtok` calls with a fixed
delimiter set. -/
def tokenize (delims : List Char) (s : List Char) : List (List Char) :=
  tokenizeGo delims (s.length + 1) s

/-- Delimiters of the argument-reading `strtok` calls: `", \t\n"`. -/
def commaWs : List Char := [',', ' ', '\t', '\n']

/-- Delimiters of the whitespace-only `strtok` calls: `" \t\n"`. -/
def wsOnly : List Char := [' ', '\t', '\n']

/-- Replace the element at an index, if present (C in-place array update). -/
def modifyAt {α : Type} : List α → Nat → (α → α) → List α
  | [], _, _ => []
  | x :: xs, 0, f => f x :: xs
  | x :: xs, n + 1, f => x :: modifyAt xs n f

@[simp] theorem modifyAt_length {α : Type} (l : List α) (i : Nat) (f : α → α) :
    (modifyAt l i f).length = l.length := by
  induction l generalizing i with
  | nil => rfl
  | cons x xs ih => cases i <;> simp [modifyAt, ih]

/-! ### Constants (assembler.h, first_pass.h, second_pass_utils.h) -/

def DATA : Char := 'd'
def INS : Char := 'i'
def EXTERNAL : Char := 'x'
def ENTRY : Char := 't'
def REGULAR : Char := 'r'
def UNKNOWN_LABEL_TYPE : Char := '?'

def ERROR_OCCURRED : Int := -3
def FATAL_ERROR : Int := -4

def VALID_LINE : Nat := 80
def MEM_AVAIL_WORDS : Nat := 156
def WORD_LEN : Nat := 30
def CMD_LEN : Nat := 6
def MIN_NUM_D : Int := -512
def MAX_NUM_D : Int := 511
def MIN_NUM_I : Int := -128
def MAX_NUM_I : Int := 127
def SOURCE : Nat := 1
def DESTINATION : Nat := 2
def MIN_NUM_REG : Int := 0
def MAX_NUM_REG : Int := 7
def INT_MAX_C : Int := 2147483647

/-- Addressing modes (`enum ADDRESS`), as the `int` values the C code uses. -/
def IMMEDIATE : Int := 0
def DIRECT : Int := 1
def MATRIX_ACCESS : Int := 2
def DIRECT_REGISTER : Int := 3

/-- Opcodes (`enum OPCODES`). -/
def MOV : Nat := 0
def CMP : Nat := 1
def ADD : Nat := 2
def SUB : Nat := 3
def LEA : Nat := 4
def PRN : Nat := 13
def RTS : Nat := 14
def STOP : Nat := 15

def ORG_ADDRESS : Nat := 100

/-! ### Pass-1 data model (assembler.h) -/

/-- `Label` (assembler.h): `l_address` is an `unsigned char` field, so every
store into it is reduced `% 256`. -/
structure Label where
  l_name : List Char
  l_address : Nat
  l_data_or_ins : Char
  l_ent_or_ext : Char
deriving DecidableEq, Repr

/-- `Pending` (assembler.h): `ic_index` is an `unsigned char` field. -/
structure Pending where
  label_p_name : List Char
  ic_index : Nat
  line_number_use : Nat
deriving DecidableEq, Repr

/-- The mutable per-file state of Pass 1: the globals `ic`, `dc`, `error`,
`was_reg`, `line_count` (first_pass.c) together with the tables the pass
builds, plus the accumulated diagnostics of `report_error_pass`. -/
structure FPState where
  ic : Nat
  dc : Nat
  error : Bool
  was_reg : Bool
  line_count : Nat
  dataset : List Int
  ins_set : List Int
  label_set : List Label
  pending_refs : List Pending
  msgs : List (Nat × String)
deriving DecidableEq, Repr

def initFP : FPState :=
  { ic := 0, dc := 0, error := false, was_reg := false, line_count := 0,
    dataset := [], ins_set := [], label_set := [], pending_refs := [], msgs := [] }

/-- `report_error_pass` at an explicit line number. -/
def reportAt (s : FPState) (line : Nat) (msg : String) : FPState :=
  { s with msgs := s.msgs ++ [(line, msg)] }

/-- `error = TRUE; report_error_pass(am_file_name, line_count, msg)`. -/
def reportE (s : FPState) (msg : String) : FPState :=
  reportAt { s with error := true } s.line_count msg

/-! ### Image writers (data_handling.c `add_data`, instruction_handling.c `add_ins`) -/

/-- `add_data`: refuse the emit when `dc+ic == MEM_AVAIL_WORDS`, otherwise
append the word to the data image and bump `dc`.  (The `realloc`-failure
branch is a resource error outside the model.) -/
def add_data (s : FPState) (word : Int) : FPState × Int :=
  if s.dc + s.ic = MEM_AVAIL_WORDS then
    (reportE s "There are no free cells in memory", FATAL_ERROR)
  else
    ({ s with dc := s.dc + 1, dataset := s.dataset ++ [word] }, 0)

/-- `add_ins`: same structure as `add_data`, on the instruction image. -/
def add_ins (s : FPState) (word : Int) : FPState × Int :=
  if s.dc + s.ic = MEM_AVAIL_WORDS then
    (reportE s "There are no free cells in memory", FATAL_ERROR)
  else
    ({ s with ic := s.ic + 1, ins_set := s.ins_set ++ [word] }, 0)

/-- `add_pending_refs`: append a pending reference; the stored `ic_index`
is `ic - 1` truncated to `unsigned char`. -/
def add_pending_refs (s : FPState) (icArg lineArg : Nat) (name : List Char) : FPState :=
  { s with pending_refs := s.pending_refs ++ [⟨name, (icArg - 1) % 256, lineArg⟩] }

/-! ### Label table (first_pass_utils.c) -/

/-- `is_label_name`. -/
def is_label_name (label : List Char) (labels : List Label) : Bool :=
  labels.any (fun l => l.l_name = label)

/-- `is_reg_name`. -/
def is_reg_name (label : List Char) : Bool :=
  [cs "r0", cs "r1", cs "r2", cs "r3", cs "r4", cs "r5", cs "r6", cs "r7"].contains label

/-- `is_reserved_word` (macro_utils.c). -/
def is_reserved_word (word : List Char) : Bool :=
  [cs "mov", cs "cmp", cs "add", cs "sub", cs "not", cs "clr", cs "lea",
   cs "inc", cs "dec", cs "jmp", cs "bne", cs "red", cs "prn", cs "jsr",
   cs "rts", cs "stop", cs "mcro", cs "mcroend",
   cs "data", cs "string", cs "mat", cs "extern", cs "entry"].contains word

/-- The in-place finalization `add_label` performs on a slot it treats as the
pending `.entry` placeholder: overwrite the kind, and the address with the
current `dc`/`ic` (as `unsigned char`). -/
def finalizeSlot (s : FPState) (d : Char) (l : Label) : Label :=
  { l with
    l_data_or_ins := d,
    l_address := if d = DATA then s.dc % 256
                 else if d = INS then s.ic % 256
                 else l.l_address }

/-- `add_label` (first_pass_utils.c).  When the name already occurs in the
table, the C loop finalizes the first slot whose kind is
`UNKNOWN_LABEL_TYPE` — the name of that slot is not compared.  Otherwise a
new slot is appended; address stores are `unsigned char` casts. -/
def add_label (s : FPState) (name : List Char) (d e : Char) : FPState :=
  match (if is_label_name name s.label_set then
           s.label_set.findIdx? (fun l => l.l_data_or_ins = UNKNOWN_LABEL_TYPE)
         else none) with
  | some i => { s with label_set := modifyAt s.label_set i (finalizeSlot s d) }
  | none =>
    let addr : Nat :=
      if e = EXTERNAL then 0
      else if d = UNKNOWN_LABEL_TYPE then s.line_count % 256
      else if d = DATA then s.dc % 256
      else if d = INS then s.ic % 256
      else 0
    { s with label_set := s.label_set ++ [⟨name, addr, d, e⟩] }

/-- Tail of `is_valid_label`: the register-name, reserved-word and
macro-name checks that follow the duplicate check. -/
def labelTailChecks (s : FPState) (label : List Char) (mcroNames : List (List Char)) :
    FPState × Bool :=
  if is_reg_name label then
    (reportE s "The label name is invalid - it is a register name", false)
  else if is_reserved_word label then
    (reportE s "The label name is invalid - it is a reserved word", false)
  else if mcroNames.contains label then
    (reportE s "The label name is invalid - it is a macro name", false)
  else (s, true)

/-- `is_valid_label` (first_pass_utils.c), in the C checking order; returns
the (possibly error-reporting) state and the TRUE/FALSE answer.  Only the
first slot whose name matches decides the duplicate check, as in the C loop. -/
def is_valid_label (s : FPState) (label : List Char) (mcroNames : List (List Char)) :
    FPState × Bool :=
  if !isAlphaC (label.headD '\x00') then
    (reportE s "Invalid label name - first character must be a letter", false)
  else if !(label.drop 1).all isAlnumC then
    (reportE s "Invalid label name - A valid label name contains only numbers or letters", false)
  else
    match s.label_set.find? (fun l => l.l_name = label) with
    | some l =>
      if l.l_data_or_ins = UNKNOWN_LABEL_TYPE then
        labelTailChecks s label mcroNames
      else
        (reportE s "A label with the same name already exists", false)
    | none => labelTailChecks s label mcroNames

/-! ### Directive parsing and encoding (data_handling.c) -/

/-- `is_valid_num`: parse a decimal integer token and range-check it for the
context (`DATA`: 10-bit signed, `INS`: 8-bit signed).  `none` stands for the
C sentinel `INT_MIN`. -/
def is_valid_num (s : FPState) (token : List Char) (num_type : Char) :
    FPState × Option Int :=
  let (num, rest) := parseLong token
  if rest ≠ [] then
    (reportE s "The parameter is invalid - expecting an integer to be received", none)
  else if num_type = DATA then
    if num > MAX_NUM_D ∨ num < MIN_NUM_D then
      (reportE s "The number is invalid because it requires more than the legal number of bits", none)
    else (s, some num)
  else if num_type = INS then
    if num > MAX_NUM_I ∨ num < MIN_NUM_I then
      (reportE s "The number is invalid because it requires more than the legal number of bits", none)
    else (s, some num)
  else (s, some num)

/-- `check_mat_def`'s optional `r` prefix inside a bracket (`INS` type only). -/
def regPrefixStep (typ : Char) (p : List Char) : Option (List Char) :=
  if typ = INS then
    match p with
    | 'r' :: q => some q
    | _ => none
  else some p

/-- `check_mat_def` (data_handling.c): validate a `[rows][cols]` (for `DATA`)
or `[rN][rN]` (for `INS`) definition token.  `none` is `ERROR_OCCURRED`; the
state carries the reported message (`check_mat_def` reports but does not set
the global `error` flag — its callers do).  The C check `*ptr1 == '\0'` right
after `*ptr1 != ']'` succeeded is unreachable and has no counterpart here. -/
def check_mat_def (s : FPState) (md : List Char) (typ : Char) :
    FPState × Option (Int × Int) :=
  match md with
  | '[' :: p0 =>
    match regPrefixStep typ p0 with
    | none =>
      (reportAt s s.line_count
        "Using an array expects to receive only register names as parameters, inside []", none)
    | some p1 =>
      match parseLong? p1 with
      | none =>
        (reportAt s s.line_count "A number is missing or a different character was received", none)
      | some (row, q1) =>
        match q1 with
        | ']' :: '[' :: q3 =>
          match regPrefixStep typ q3 with
          | none =>
            (reportAt s s.line_count
              "Using an array expects to receive only register names as parameters, inside []", none)
          | some p2 =>
            match parseLong? p2 with
            | none =>
              (reportAt s s.line_count
                "A number is missing or a different character was received", none)
            | some (col, q4) =>
              match q4 with
              | ']' :: q5 =>
                if q5 ≠ [] then
                  (reportAt s s.line_count
                    "An extra character appears after a matrix definition", none)
                else if row > INT_MAX_C ∨ row < 0 then
                  (reportAt s s.line_count
                    "Invalid row size (the required size must be positive and not exceed the size of an int)", none)
                else if col > INT_MAX_C ∨ col < 0 then
                  (reportAt s s.line_count
                    "Invalid column size (the required size must be positive and not exceed the size of an int)", none)
                else (s, some (row, col))
              | _ =>
                (reportAt s s.line_count
                  "Missing closing bracket or another character was received", none)
        | ']' :: q2 =>
          (match q2 with
           | _ =>
             (reportAt s s.line_count
               "Missing opening bracket or another character was received", none))
        | _ =>
          (reportAt s s.line_count
            "Missing closing bracket or another character was received", none)
  | _ =>
    (reportAt s s.line_count
      "Missing opening bracket or another character was received", none)

/-- Worker of `is_valid_commas`: the character scan with its
`expect_comma` / `was_space` flags; `i` only distinguishes a comma at
position 0 for the error message. -/
def validCommasGo (s : FPState) : List Char → Nat → Bool → Bool → FPState × Bool
  | [], _, expect, _ =>
    if !expect then
      (reportE s "There is a comma after all parameters", false)
    else (s, true)
  | c :: rest, i, expect, was =>
    if c = ',' then
      if !expect then
        if i = 0 then (reportE s "There is a comma before parameters", false)
        else (reportE s "There is more than one comma between parameters", false)
      else validCommasGo s rest (i + 1) false was
    else if isSpaceC c then validCommasGo s rest (i + 1) expect true
    else
      if !expect then validCommasGo s rest (i + 1) true false
      else if expect && was then
        (reportE s "Missing comma between parameters", false)
      else validCommasGo s rest (i + 1) expect was

/-- `is_valid_commas` (data_handling.c). -/
def is_valid_commas (s : FPState) (rest : List Char) : FPState × Bool :=
  if rest.length = 0 then (s, true)
  else validCommasGo s rest 0 false false

/-- The `.data` token loop: parse each integer and append it to the data
image, stopping on the first invalid number (non-fatal) or a full memory. -/
def dataLoop (s : FPState) : List (List Char) → FPState × Int
  | [] => (s, 0)
  | t :: ts =>
    match is_valid_num s t DATA with
    | (s2, none) => (s2, 0)
    | (s2, some n) =>
      match add_data s2 n with
      | (s3, r) => if r = FATAL_ERROR then (s3, FATAL_ERROR) else dataLoop s3 ts

/-- `data_cmd` (data_handling.c).  The `strtok(NULL, ", \t\n")` stream over
the line buffer is modelled by tokenizing `rest` (the text after the
directive word) with the same delimiters. -/
def data_cmd (s : FPState) (rest : List Char) : FPState × Int :=
  match is_valid_commas s rest with
  | (s1, false) => (s1, 0)
  | (s1, true) => dataLoop s1 (tokenize commaWs rest)

/-- The `.string` character loop over the characters strictly between the
two quote positions. -/
def stringLoop (s : FPState) : List Char → FPState × Option Int
  | [] => (s, some 0)
  | c :: rest =>
    if 31 < c.toNat ∧ c.toNat < 127 then
      match add_data s (c.toNat : Int) with
      | (s2, r) => if r = FATAL_ERROR then (s2, some FATAL_ERROR) else stringLoop s2 rest
    else (reportE s "Invalid string - invisible character", none)

/-- `string_cmd` (data_handling.c): check the opening quote, strip trailing
whitespace, copy the visible characters at indices `1 .. j-1`, check that
index `j` holds the closing quote, then append the terminating 0 word. -/
def string_cmd (s : FPState) (rest : List Char) : FPState × Int :=
  match rest with
  | '"' :: _ =>
    let tr := (rest.reverse.dropWhile isSpaceC).reverse
    match stringLoop s ((tr.drop 1).dropLast) with
    | (s2, none) => (s2, 0)
    | (s2, some r) =>
      if r = FATAL_ERROR then (s2, FATAL_ERROR)
      else if tr.getLast? ≠ some '"' then
        (reportE s2 "Invalid string - missing closing quotes", 0)
      else
        match add_data s2 0 with
        | (s3, r2) => if r2 = FATAL_ERROR then (s3, FATAL_ERROR) else (s3, 0)
  | _ => (reportE s "Invalid string - missing opening quotes", 0)

/-- Zero-fill of the remaining matrix cells. -/
def zeroFill (s : FPState) : Nat → FPState × Int
  | 0 => (s, 0)
  | m + 1 =>
    match add_data s 0 with
    | (s2, r) => if r = FATAL_ERROR then (s2, FATAL_ERROR) else zeroFill s2 m

/-- The `.mat` value loop: consume value tokens while cells remain; a
leftover token afterwards is the overflow error, leftover cells are
zero-filled. -/
def matLoop (s : FPState) : List (List Char) → Nat → FPState × Int
  | t :: ts, m + 1 =>
    match is_valid_num s t DATA with
    | (s2, none) => (s2, 0)
    | (s2, some n) =>
      match add_data s2 n with
      | (s3, r) => if r = FATAL_ERROR then (s3, FATAL_ERROR) else matLoop s3 ts m
  | _ :: _, 0 =>
    (reportE s "There are unnecessary parameter(s), overflow from the defined matrix", 0)
  | [], m => zeroFill s m

/-- `mat_cmd` (data_handling.c).  The matrix-size product `(int)r * (int)c`
is modelled on `Nat` (both factors are checked non-negative by
`check_mat_def`; a product beyond `INT_MAX` is undefined behaviour in the C
and is not given a more specific meaning here).  The initial
`strtok(NULL, " \t\n")` call, which consumes the `[r][c]` token from the
line buffer, corresponds to tokenizing only the text after that token. -/
def mat_cmd (s : FPState) (rest : List Char) : FPState × Int :=
  let mat_def := copyFirstWord rest (WORD_LEN + 1)
  match check_mat_def s mat_def DATA with
  | (s1, none) => ({ s1 with error := true }, 0)
  | (s1, some (row, col)) =>
    let mat_size : Nat := row.toNat * col.toNat
    if mat_size = 0 then
      (reportE s1 "A matrix of size zero is invalid", 0)
    else
      let rest2 := deleteWhite (rest.drop mat_def.length)
      match is_valid_commas s1 rest2 with
      | (s2, false) => (s2, 0)
      | (s2, true) => matLoop s2 (tokenize commaWs rest2) mat_size

/-! ### Instruction encoding (instruction_handling.c) -/

/-- Title word `(opcode << OPCODE_SHIFT) | (src << SRC_SHIFT) | (dst << DST_SHIFT)`.
The three fields occupy disjoint bits (opcode in 6..9, src in 4..5, dst in
2..3), so the C bitwise OR is the sum. -/
def titleWord (opcode src dst : Nat) : Int :=
  ((opcode <<< 6) ||| (src <<< 4) ||| (dst <<< 2) : Nat)

/-- `parse_encode_arguments` (instruction_handling.c): classify one operand
token, check it against the allowed addressing modes, emit the extra word(s)
and pending references.  The result is the addressing mode, `ERROR_OCCURRED`
or `FATAL_ERROR`, as in C.  `num << NUM_SHIFT` on a (possibly negative)
immediate is two's-complement, i.e. multiplication by 4. -/
def parse_encode_arguments (s : FPState) (argument : List Char)
    (src_or_dst : Nat) (allowed : List Int) : FPState × Int :=
  let mode : Int :=
    if argument.headD '\x00' = '#' then IMMEDIATE
    else if is_reg_name argument then DIRECT_REGISTER
    else if argument.any (fun c => c = '[' ∨ c = ']') then MATRIX_ACCESS
    else DIRECT
  if !allowed.contains mode then
    if src_or_dst = DESTINATION then
      (reportE s "The destination parameter type does not match the command", ERROR_OCCURRED)
    else
      (reportE s "The source parameter type does not match the command", ERROR_OCCURRED)
  else if mode = IMMEDIATE then
    match is_valid_num s (argument.drop 1) INS with
    | (s2, none) => (s2, ERROR_OCCURRED)
    | (s2, some num) =>
      match add_ins s2 (num * 4) with
      | (s3, r) => if r = FATAL_ERROR then (s3, FATAL_ERROR) else (s3, mode)
  else if mode = DIRECT then
    match add_ins s 0 with
    | (s2, r) =>
      if r = FATAL_ERROR then (s2, FATAL_ERROR)
      else (add_pending_refs s2 s2.ic s2.line_count argument, mode)
  else if mode = MATRIX_ACCESS then
    let pre := argument.takeWhile (fun c => !(c = '[' ∨ c = ']'))
    let name_mat := pre.take WORD_LEN
    if name_mat = [] then
      (reportE s "Matrix name is missing", ERROR_OCCURRED)
    else if pre.length > WORD_LEN then
      (reportE s "Invalid matrix name - too long", ERROR_OCCURRED)
    else
      match add_ins s 0 with
      | (s2, r) =>
        if r = FATAL_ERROR then (s2, FATAL_ERROR)
        else
          let s3 := add_pending_refs s2 s2.ic s2.line_count name_mat
          match check_mat_def s3 (argument.drop name_mat.length) INS with
          | (s4, none) => ({ s4 with error := true }, ERROR_OCCURRED)
          | (s4, some (row, col)) =>
            if row < MIN_NUM_REG ∨ row > MAX_NUM_REG ∨ col < MIN_NUM_REG ∨ col > MAX_NUM_REG then
              (reportE s4 "A register with this name does not exist", ERROR_OCCURRED)
            else
              match add_ins s4 (row * 64 + col * 4) with
              | (s5, r2) => if r2 = FATAL_ERROR then (s5, FATAL_ERROR) else (s5, mode)
  else
    -- DIRECT_REGISTER
    let num : Int := atoiC (argument.drop 1)
    if src_or_dst = SOURCE then
      match add_ins { s with was_reg := true } (num * 64) with
      | (s2, r) => if r = FATAL_ERROR then (s2, FATAL_ERROR) else (s2, mode)
    else
      -- DESTINATION: `num <<= DST_SHIFT`, then either OR into the register
      -- word already emitted for the source operand, or append a new word.
      -- The two register fields are disjoint, so `|=` is addition.
      let num2 := num * 4
      if s.was_reg then
        ({ s with ins_set := modifyAt s.ins_set (s.ic - 1) (fun w => w + num2) }, mode)
      else
        match add_ins s num2 with
        | (s2, r) => if r = FATAL_ERROR then (s2, FATAL_ERROR) else (s2, mode)

/-- The allowed source modes of `handle_two_prms` per opcode. -/
def allowedSrcModes (opcode : Nat) : List Int :=
  if opcode = MOV ∨ opcode = CMP ∨ opcode = ADD ∨ opcode = SUB then
    [IMMEDIATE, DIRECT, MATRIX_ACCESS, DIRECT_REGISTER]
  else if opcode = LEA then [DIRECT, MATRIX_ACCESS]
  else []  -- unreachable: handle_two_prms is dispatched only for the five above

/-- The allowed destination modes of `handle_two_prms` per opcode. -/
def allowedDstModes (opcode : Nat) : List Int :=
  if opcode = CMP then [IMMEDIATE, DIRECT, MATRIX_ACCESS, DIRECT_REGISTER]
  else [DIRECT, MATRIX_ACCESS, DIRECT_REGISTER]

/-- `handle_two_prms` (instruction_handling.c), over the token stream of the
line's remainder.  Emits the placeholder title word, encodes both operands,
resets `was_reg`, rejects extra tokens, then overwrites the title word. -/
def handle_two_prms (s : FPState) (tokens : List (List Char)) (opcode : Nat) :
    FPState × Int :=
  match add_ins s 0 with
  | (s1, r0) =>
    if r0 = FATAL_ERROR then (s1, FATAL_ERROR)
    else
      let ic_title := s1.ic - 1
      match tokens with
      | [] => (reportE s1 "Missing parameters", 0)
      | t1 :: rest1 =>
        match parse_encode_arguments s1 t1 SOURCE (allowedSrcModes opcode) with
        | (s2, a1) =>
          if a1 = FATAL_ERROR then (s2, FATAL_ERROR)
          else if a1 = ERROR_OCCURRED then (s2, 0)
          else
            match rest1 with
            | [] => (reportE s2 "Missing parameter", 0)
            | t2 :: rest2 =>
              match parse_encode_arguments s2 t2 DESTINATION (allowedDstModes opcode) with
              | (s3, a2) =>
                if a2 = FATAL_ERROR then (s3, FATAL_ERROR)
                else if a2 = ERROR_OCCURRED then (s3, 0)
                else
                  let s4 := { s3 with was_reg := false }
                  if rest2 ≠ [] then
                    (reportE s4 "There are unnecessary parameter(s)", 0)
                  else
                    ({ s4 with ins_set :=
                        (modifyAt s4.ins_set ic_title
                          (fun _ => titleWord opcode a1.toNat a2.toNat)) }, 0)

/-- `handle_one_prm` (instruction_handling.c).  Note: unlike
`handle_two_prms`, it never resets `was_reg`. -/
def handle_one_prm (s : FPState) (tokens : List (List Char)) (opcode : Nat) :
    FPState × Int :=
  match add_ins s 0 with
  | (s1, r0) =>
    if r0 = FATAL_ERROR then (s1, FATAL_ERROR)
    else
      let ic_title := s1.ic - 1
      match tokens with
      | [] => (reportE s1 "Missing parameter", 0)
      | t1 :: rest1 =>
        let allowed :=
          if opcode = PRN then [IMMEDIATE, DIRECT, MATRIX_ACCESS, DIRECT_REGISTER]
          else [DIRECT, MATRIX_ACCESS, DIRECT_REGISTER]
        match parse_encode_arguments s1 t1 DESTINATION allowed with
        | (s2, a) =>
          if a = FATAL_ERROR then (s2, FATAL_ERROR)
          else if a = ERROR_OCCURRED then (s2, 0)
          else if rest1 ≠ [] then
            (reportE s2 "There are unnecessary parameter(s)", 0)
          else
            ({ s2 with ins_set :=
                (modifyAt s2.ins_set ic_title (fun _ => titleWord opcode 0 a.toNat)) }, 0)

/-- `handle_no_prm` (instruction_handling.c): the extra-token scan uses the
whitespace-only delimiters, so a leading comma is detected specially. -/
def handle_no_prm (s : FPState) (rest : List Char) (opcode : Nat) : FPState × Int :=
  match add_ins s (titleWord opcode 0 0) with
  | (s1, r0) =>
    if r0 = FATAL_ERROR then (s1, FATAL_ERROR)
    else
      match tokenize wsOnly rest with
      | [] => (s1, 0)
      | t :: _ =>
        if t.headD '\x00' = ',' then
          ({ reportAt s1 s1.line_count " There is an extra comma after the command name"
              with error := true }, 0)
        else
          ({ reportAt s1 s1.line_count "There are unnecessary parameter(s)"
              with error := true }, 0)

/-! ### The first pass line processor (first_pass.c) -/

/-- The `ins_opcode` name table of `first_pass`; the index of a name is the
opcode (`enum OPCODES`). -/
def insOpcodeNames : List (List Char) :=
  [cs "mov", cs "cmp", cs "add", cs "sub", cs "lea", cs "clr", cs "not",
   cs "inc", cs "dec", cs "jmp", cs "bne", cs "jsr", cs "red", cs "prn",
   cs "rts", cs "stop"]

/-- The `.entry` name loop of `first_pass` (lines 175-190): walk the label
table; on a name match, an `EXTERNAL` slot is an error and stops the line,
an `UNKNOWN_LABEL_TYPE` slot silently stops the line, and otherwise the
slot's linkage is set to `ENTRY` and the walk continues.  Returns the
updated table, the `should_continue` flag, and whether the stop was the
external-conflict error. -/
def entryScan (name : List Char) : List Label → List Label × Bool × Bool
  | [] => ([], false, false)
  | l :: ls =>
    if l.l_name = name then
      if l.l_ent_or_ext = EXTERNAL then (l :: ls, true, true)
      else if l.l_data_or_ins = UNKNOWN_LABEL_TYPE then (l :: ls, true, false)
      else
        match entryScan name ls with
        | (ls2, sc, ee) => ({ l with l_ent_or_ext := ENTRY } :: ls2, sc, ee)
    else
      match entryScan name ls with
      | (ls2, sc, ee) => (l :: ls2, sc, ee)

/-- The check for extra text after the operand of `.entry` / `.extern`. -/
def trailingCheckAfterName (s : FPState) (p2 name : List Char) : FPState :=
  if deleteWhite (p2.drop name.length) ≠ [] then
    reportE s "Additional character(s) received after label name"
  else s

/-- The `.entry` branch of `first_pass` (lines 164-209); `p1` is the line
text after the dot, beginning with the word `entry`. -/
def entryBranch (s : FPState) (p1 : List Char) : FPState :=
  let p2 := deleteWhite (p1.drop 5)
  let name := copyFirstWord p2 (WORD_LEN + 2)
  if name = [] then reportE s "Missing label name after declaration"
  else if is_label_name name s.label_set then
    match entryScan name s.label_set with
    | (ls2, sc, ee) =>
      let s2 := { s with label_set := ls2 }
      if ee then reportE s2 "A label with this name is defined as external"
      else if sc then s2
      else trailingCheckAfterName s2 p2 name
  else
    trailingCheckAfterName (add_label s name UNKNOWN_LABEL_TYPE ENTRY) p2 name

/-- The `.extern` branch of `first_pass` (lines 211-238); `p1` is the line
text after the dot, beginning with the word `extern`. -/
def externBranch (s : FPState) (p1 : List Char) : FPState :=
  let p2 := deleteWhite (p1.drop 6)
  let name := copyFirstWord p2 (WORD_LEN + 2)
  if name = [] then reportE s "Missing label name after declaration"
  else if is_label_name name s.label_set then
    reportE s "A label with this name is defined as internal"
  else
    trailingCheckAfterName (add_label s name INS EXTERNAL) p2 name

/-- The deferred label insertion of `first_pass` (lines 256-274): a valid
label that prefixed a directive or instruction line is added here, with the
linkage depending on whether the name already sits in the table as an
`.entry` placeholder. -/
def applyLabelFlag (s : FPState) (label : List Char) (kind : Char) (flag : Bool) :
    FPState :=
  if flag then
    if is_label_name label s.label_set then add_label s label kind ENTRY
    else add_label s label kind REGULAR
  else s

/-- Directive dispatch of `first_pass` (lines 280-296) over the
`data_commands` table. -/
def dispatchData (s : FPState) (line_p : List Char) : FPState × Int :=
  let first := copyFirstWord line_p (CMD_LEN + 1)
  let rest := deleteWhite (line_p.drop first.length)
  if rest = [] then (reportE s "Missing parameters", 0)
  else if first = cs "data" then data_cmd s rest
  else if first = cs "string" then string_cmd s rest
  else if first = cs "mat" then mat_cmd s rest
  else (reportE s "Invalid command name", 0)

/-- Instruction dispatch of `first_pass` (lines 297-317) over the
`ins_commands` table: comma validation for every opcode below `RTS`, then
the arity-specific handler (`mov..lea` two operands, `clr..prn` one,
`rts`/`stop` none). -/
def dispatchIns (s : FPState) (line_p : List Char) : FPState × Int :=
  let first := copyFirstWord line_p (CMD_LEN + 1)
  let rest := deleteWhite (line_p.drop first.length)
  match insOpcodeNames.findIdx? (fun n => n = first) with
  | none => (reportE s "Invalid command name", 0)
  | some k =>
    if k < RTS then
      match is_valid_commas s rest with
      | (s1, false) => (s1, 0)
      | (s1, true) =>
        if k ≤ LEA then handle_two_prms s1 (tokenize commaWs rest) k
        else handle_one_prm s1 (tokenize commaWs rest) k
    else handle_no_prm s rest k

/-- The remainder of the line-processing loop body after label detection;
`line_p` is the line with any label prefix stripped, `label`/`flag` the
pending label.  The C disjunct `first_word[len_label] == ':'` (line 247)
reads the terminator the earlier `copy_first_word` wrote at that position
and is therefore always false; only `there_is_colon` remains. -/
def processRest (s : FPState) (line_p : List Char)
    (label : List Char) (flag : Bool) : FPState × Int :=
  if line_p = [] then (reportE s "No content after label", 0)
  else if line_p.headD '\x00' = '.' then
    let p1 := line_p.drop 1
    if p1 = [] then (reportE s "No command and parameters", 0)
    else
      let fw := copyFirstWord p1 (WORD_LEN + 2)
      if fw = cs "entry" then (entryBranch s p1, 0)
      else if fw = cs "extern" then (externBranch s p1, 0)
      else if isSpaceC (p1.headD '\x00') then
        (reportE s "There is a blank character after the period", 0)
      else
        dispatchData (applyLabelFlag s label DATA flag) p1
  else
    if thereIsColon line_p then (reportE s "Invalid label length", 0)
    else dispatchIns (applyLabelFlag s label INS flag) line_p

/-- One iteration of the `fgets` loop of `first_pass` (lines 100-327), on
the logical content of a source line (without its newline; every use of the
buffer treats `'\n'` as whitespace).  The overlong-line branch also models
the skip-to-next-line `fgetc` loop by receiving whole logical lines.  The
inner `len_label > 0` else-branch ("Missing name label") is unreachable
(`len_label >= 1` holds on that path) and has no counterpart. -/
def processLine (mcroNames : List (List Char)) (s0 : FPState) (content : List Char) :
    FPState × Int :=
  let s := { s0 with line_count := s0.line_count + 1 }
  if content.length > VALID_LINE then
    (reportE s "Invalid line length: over 80 characters", 0)
  else if content.headD '\x00' = ';' then (s, 0)
  else
    let line_p := deleteWhite content
    if line_p.headD '\x00' = ';' then
      (reportE s "A comment line begin with a semicolon, not a blank character", 0)
    else if line_p = [] then (s, 0)
    else
      let first_word := copyFirstWord line_p (WORD_LEN + 2)
      let len_label := first_word.length
      if 1 ≤ len_label ∧ first_word.getLast? = some ':' then
        match is_valid_label s (first_word.dropLast) mcroNames with
        | (s1, false) => (s1, 0)
        | (s1, true) =>
          processRest s1 (deleteWhite (line_p.drop len_label))
            (first_word.dropLast) true
      else processRest s line_p [] false

def undefinedEntryMsg : String :=
  "A label was declared internal and was not defined in this file"

/-- Worker of `endOfPassReport`. -/
def endReportGo (s : FPState) : List Label → FPState
  | [] => s
  | l :: ls =>
    if l.l_data_or_ins = UNKNOWN_LABEL_TYPE then
      endReportGo (reportAt { s with error := true } l.l_address undefinedEntryMsg) ls
    else endReportGo s ls

/-- The end-of-pass scan of `first_pass` (lines 329-334): report every
symbol still of kind `UNKNOWN_LABEL_TYPE` (undefined `.entry`), at the line
number stored in its address field. -/
def endOfPassReport (s : FPState) : FPState := endReportGo s s.label_set

/-! ### Second pass (second_pass.c, second_pass_utils.c) -/

/-- The base-4 alphabet `QUAD_DIGITS = "abcd"`. -/
def quadDigit (d : Nat) : Char :=
  if d = 0 then 'a' else if d = 1 then 'b' else if d = 2 then 'c' else 'd'

/-- `to_base4_addr`: 4 base-4 digits, negative values clamped to 0. -/
def to_base4_addr (value : Int) : List Char :=
  let n : Nat := value.toNat
  [quadDigit (n / 64 % 4), quadDigit (n / 16 % 4), quadDigit (n / 4 % 4), quadDigit (n % 4)]

/-- `to_base4_word`: 5 base-4 digits of `value & WORD_MASK`.  Masking a
two's-complement `int` with `0x3FF` is the nonnegative residue mod 1024. -/
def to_base4_word (value : Int) : List Char :=
  let n : Nat := (value % 1024).toNat
  [quadDigit (n / 256 % 4), quadDigit (n / 64 % 4), quadDigit (n / 16 % 4),
   quadDigit (n / 4 % 4), quadDigit (n % 4)]

/-- One `.ob` body line: `ADDR<TAB>WORD`. -/
def obLine (absAddress : Int) (word : Int) : List Char :=
  to_base4_addr absAddress ++ '\t' :: to_base4_word word

/-- The `.ob` header line: one leading space, `IC DC` in base-4. -/
def obHeader (icFinal dcFinal : Nat) : List Char :=
  ' ' :: to_base4_addr icFinal ++ ' ' :: to_base4_addr dcFinal

/-- A lazily opened output file (`.ent` / `.ext`): `none` until the first
line forces `fopen`, then the list of `<name> <base-4 addr>` lines. -/
abbrev OutFile := Option (List (List Char × List Char))

/-- `write_external` / `write_entry`: open the file on first use, append one
`<label> <base-4 address>` line. -/
def writeLazyLine (f : OutFile) (label : List Char) (absAddress : Int) : OutFile :=
  match f with
  | none => some [(label, to_base4_addr absAddress)]
  | some lines => some (lines ++ [(label, to_base4_addr absAddress)])

/-- `find_label` (second_pass_utils.c): first slot with a matching name. -/
def find_label (labels : List Label) (name : List Char) : Option Label :=
  labels.find? (fun l => l.l_name = name)

/-- The absolute value `patch_word_with_label` computes for an internal
label: data labels sit above the instruction image. -/
def absValOf (icFinal : Nat) (lab : Label) : Int :=
  if lab.l_data_or_ins = DATA then (ORG_ADDRESS : Int) + icFinal + lab.l_address
  else (ORG_ADDRESS : Int) + lab.l_address

/-- `word &= ~((ADDR_VALUE_MASK << ADDR_VALUE_SHIFT) | ARE_MASK)`: clearing
the low 10 bits of a two's-complement integer is subtracting its
nonnegative residue mod 1024. -/
def clearLow10 (w : Int) : Int := w - w % 1024

/-- `patch_word_with_label` (second_pass_utils.c): patch the operand word at
`ic_index` according to the resolved label, appending a use line to the
(lazily opened) `.ext` file for an external label, and raising the non-fatal
error flag when an internal absolute value exceeds `ADDR_VALUE_MAX`.  All
OR-ed fields are disjoint from the cleared low 10 bits and from each other,
so the C bitwise ORs are sums; `abs_val & ADDR_VALUE_MASK` is the residue
mod 256 of a nonnegative value. -/
def patch_word_with_label (ins : List Int) (ic_index : Nat) (lab : Label)
    (icFinal : Nat) (ext : OutFile) (p_error : Bool) :
    List Int × OutFile × Bool :=
  let abs_val : Int := if lab.l_ent_or_ext = EXTERNAL then 0 else absValOf icFinal lab
  let p2 : Bool :=
    if lab.l_ent_or_ext ≠ EXTERNAL ∧ abs_val > 255 then true else p_error
  let word := ins.getD ic_index 0
  if lab.l_ent_or_ext = EXTERNAL then
    (ins.set ic_index (clearLow10 word + 1),
     writeLazyLine ext lab.l_name ((ORG_ADDRESS : Int) + ic_index), p2)
  else
    (ins.set ic_index (clearLow10 word + (abs_val % 256) * 4 + 2), ext, p2)

/-- The state the pending-resolution loop of `second_pass` threads. -/
structure SPState where
  ins : List Int
  ext : OutFile
  had_error : Bool
deriving DecidableEq, Repr

/-- The pending-resolution loop of `second_pass` (lines 54-73): undefined
labels raise the non-fatal flag and the scan continues; resolved labels are
patched (externals also log their use site). -/
def resolveLoop (labels : List Label) (icFinal : Nat) (st : SPState) :
    List Pending → SPState
  | [] => st
  | p :: ps =>
    match find_label labels p.label_p_name with
    | none => resolveLoop labels icFinal { st with had_error := true } ps
    | some lab =>
      match patch_word_with_label st.ins p.ic_index lab icFinal st.ext st.had_error with
      | (ins2, ext2, he2) => resolveLoop labels icFinal ⟨ins2, ext2, he2⟩ ps

/-- `flush_all_entries` (second_pass_utils.c): one `.ent` line for every
label whose linkage is `ENTRY` (the kind is not consulted), in table order,
at the section-adjusted absolute address. -/
def flush_all_entries (labels : List Label) (icFinal : Nat) (ent : OutFile) : OutFile :=
  match labels with
  | [] => ent
  | l :: ls =>
    if l.l_ent_or_ext = ENTRY then
      flush_all_entries ls icFinal (writeLazyLine ent l.l_name (absValOf icFinal l))
    else flush_all_entries ls icFinal ent

/-- The observable outcome of `second_pass`: the three output files as left
on disk after the final keep-or-remove decision, the error flag handed back
through `*p_error`, and the non-fatal error accumulator of the pass. -/
structure SPResult where
  ob : Option (List (List Char))
  ent : OutFile
  ext : OutFile
  p_error : Bool
  had_error : Bool
deriving DecidableEq, Repr

/-- `second_pass` (second_pass.c), fatal-I/O-free runs: write the `.ob`
header, resolve all pendings, write the instruction then data words, flush
the entries, and finally either remove all three outputs (when this pass or
Pass 1 recorded a non-fatal error, also setting `*p_error`) or keep
everything that was written. -/
def second_pass (ins : List Int) (icFinal : Nat) (dataset : List Int)
    (dcFinal : Nat) (labels : List Label) (pendings : List Pending)
    (pErrorIn : Bool) : SPResult :=
  let st := resolveLoop labels icFinal ⟨ins, none, false⟩ pendings
  let obLines :=
    obHeader icFinal dcFinal
      :: ((List.range icFinal).map
            (fun i => obLine ((ORG_ADDRESS + i : Nat) : Int) (st.ins.getD i 0))
          ++ (List.range dcFinal).map
            (fun i => obLine ((ORG_ADDRESS + icFinal + i : Nat) : Int) (dataset.getD i 0)))
  let ent := flush_all_entries labels icFinal none
  if st.had_error ∨ pErrorIn then
    { ob := none, ent := none, ext := none, p_error := true, had_error := st.had_error }
  else
    { ob := some obLines, ent := ent, ext := st.ext, p_error := pErrorIn,
      had_error := st.had_error }

/-! ### The pre-assembler (pre_assembler.c, macro_utils.c).

Lines are kept raw here, including their terminating newline: `fputs` copies
them verbatim and `add_line_to_macro` captures them verbatim. -/

/-- `Macro` (assembler.h): a name and its captured body lines. -/
structure Mcro where
  name : List Char
  lines : List (List Char)
deriving DecidableEq, Repr

/-- `sscanf(line, "%s", word)`: the first whitespace-delimited token. -/
def firstWordOf (line : List Char) : List Char :=
  (line.dropWhile isSpaceC).takeWhile (fun c => !isSpaceC c)

/-- `find_macro` (macro_utils.c). -/
def findMcro (table : List Mcro) (name : List Char) : Option Mcro :=
  table.find? (fun m => m.name = name)

/-- `is_valid_macro_name` (macro_utils.c): 1..30 characters, alphabetic
first character, alphanumeric or underscore afterwards. -/
def isValidMcroName (name : List Char) : Bool :=
  0 < name.length && name.length ≤ 30 && isAlphaC (name.headD '\x00')
    && (name.drop 1).all (fun c => isAlnumC c || c = '_')

/-- `is_valid_macro_start_line` (macro_utils.c): returns the error code
(0 ok, 1 syntax, 2 reserved, 3 illegal name, 4 duplicate) and, on success,
the macro name (`strncpy` truncates at 30 characters).  `sscanf "%s %s %s"`
counts at most three tokens, so `count == 2` is: exactly two tokens. -/
def isValidMcroStartLine (table : List Mcro) (line : List Char) : Nat × List Char :=
  match tokenize wsOnly line with
  | [t1, t2] =>
    if t1 ≠ cs "mcro" then (1, [])
    else if is_reserved_word t2 then (2, [])
    else if !isValidMcroName t2 then (3, [])
    else if (findMcro table t2).isSome then (4, [])
    else (0, t2.take 30)
  | _ => (1, [])

/-- The state of the `mcro_exec` scan loop (pre_assembler.c): the emitted
output lines, the macro table, the inside-a-definition flag, the macro being
collected, the `macro_name` and `word` C buffers (which keep their previous
contents when nothing is assigned into them), the error accumulator, and
the diagnostics. -/
structure McroState where
  out : List (List Char)
  table : List Mcro
  inside : Bool
  current : Option Mcro
  nameBuf : List Char
  wordBuf : List Char
  error : Bool
  line_num : Nat
  msgs : List (Nat × String)
deriving DecidableEq, Repr

def initMcro : McroState :=
  { out := [], table := [], inside := false, current := none, nameBuf := [],
    wordBuf := [], error := false, line_num := 0, msgs := [] }

/-- `report_error` (macro_utils.c). -/
def mcroReport (s : McroState) (msg : String) : McroState :=
  { s with msgs := s.msgs ++ [(s.line_num, msg)] }

/-- The `mcro <name>` branch of `mcro_exec` (lines 95-117): nested
definitions and invalid start lines are reported, but a macro object is
created regardless — on a validation failure from the stale contents of the
`macro_name` buffer. -/
def mcroStartBranch (s : McroState) (line : List Char) : McroState :=
  let s1 := if s.inside then { mcroReport s "Nested macros not supported" with error := true } else s
  let s2 :=
    match isValidMcroStartLine s1.table line with
    | (0, nm) => { s1 with nameBuf := nm }
    | (1, _) => { mcroReport s1 "Invalid macro declaration syntax" with error := true }
    | (2, _) => { mcroReport s1 "Reserved word used as macro name" with error := true }
    | (3, _) => { mcroReport s1 "Illegal macro name" with error := true }
    | (_, _) => { mcroReport s1 "Duplicate macro definition" with error := true }
  { s2 with current := some ⟨s2.nameBuf, []⟩, inside := true }

/-- The `mcroend` branch of `mcro_exec` (lines 120-139): stray or empty
definitions are reported, and the collected macro is registered regardless.
When `current` is NULL the C stores a null pointer in the table, which a
later `find_macro` would dereference (undefined behaviour); the model
records the errors and omits the unusable entry. -/
def mcroEndBranch (s : McroState) : McroState :=
  let s1 := if !s.inside then
      { mcroReport s "'mcroend' without matching 'mcro'" with error := true }
    else s
  let s2 :=
    if (match s1.current with
        | some c => c.lines.length = 0
        | none => true : Bool) then
      { mcroReport s1 "Empty macro is not allowed" with error := true }
    else s1
  let table2 := match s2.current with
                | some c => s2.table ++ [c]
                | none => s2.table
  { s2 with table := table2, current := none, inside := false }

/-- One iteration of the `fgets` loop of `mcro_exec` (pre_assembler.c,
lines 72-159), on a raw line (newline included).  An overlong line is
reported but still processed.  `sscanf` leaves the `word` buffer untouched
on an all-whitespace line, so the previous word is reused. -/
def mcroStep (s0 : McroState) (line : List Char) : McroState :=
  let s := { s0 with line_num := s0.line_num + 1 }
  let len := line.length - (if line.getLast? = some '\n' then 1 else 0)
  let s := if len > VALID_LINE then
      { mcroReport s "Line too long" with error := true }
    else s
  if line.headD '\x00' = '\n' ∨ line.headD '\x00' = ';' then
    { s with out := s.out ++ [line] }
  else
    let w0 := firstWordOf line
    let word := if w0 = [] then s.wordBuf else w0
    let s := { s with wordBuf := word }
    if word = cs "mcro" then mcroStartBranch s line
    else if word = cs "mcroend" then mcroEndBranch s
    else if s.inside then
      match s.current with
      | some c => { s with current := some ⟨c.name, c.lines ++ [line]⟩ }
      | none =>
        { mcroReport s "Internal error: current macro is NULL" with error := true }
    else
      match findMcro s.table word with
      | some m => { s with out := s.out ++ m.lines }
      | none => { s with out := s.out ++ [line] }

/-- `mcro_exec` over the whole source: fold the scan loop, report an
unclosed definition, and return the `.am` contents — `none` when the error
accumulator forced `remove(output_name)`. -/
def mcroExec (srcLines : List (List Char)) : Option (List (List Char)) × McroState :=
  let s := srcLines.foldl mcroStep initMcro
  let s := if s.inside then
      { mcroReport s "Macro not closed before end of file" with error := true }
    else s
  (if s.error then none else some s.out, s)

/-! ### Theorems -/

/-- C2: every emit of Pass 1 preserves `IC + DC ≤ 156`, and an emit attempted
while `IC + DC` already equals 156 is refused: the state change is exactly
the error flag plus the "no free cells" diagnostic (so no word is appended
and no counter moves), and `FATAL_ERROR` is returned. -/
theorem emit_capacity_invariant :
    (∀ (s : FPState) (w : Int), s.ic + s.dc ≤ MEM_AVAIL_WORDS →
       (add_data s w).1.ic + (add_data s w).1.dc ≤ MEM_AVAIL_WORDS ∧
       (add_ins s w).1.ic + (add_ins s w).1.dc ≤ MEM_AVAIL_WORDS) ∧
    (∀ (s : FPState) (w : Int), s.ic + s.dc = MEM_AVAIL_WORDS →
       add_data s w = (reportE s "There are no free cells in memory", FATAL_ERROR) ∧
       add_ins s w = (reportE s "There are no free cells in memory", FATAL_ERROR)) := by
  constructor
  · intro s w h
    unfold add_data add_ins
    by_cases hc : s.dc + s.ic = MEM_AVAIL_WORDS
    · simp [hc, reportE, reportAt]
      omega
    · simp [hc]
      unfold MEM_AVAIL_WORDS at *
      omega
  · intro s w h
    unfold add_data add_ins
    have hc : s.dc + s.ic = MEM_AVAIL_WORDS := by omega
    simp [hc]

/-- C2 witness: with `IC + DC = 156` the data emit is refused — the data
image stays empty and `FATAL_ERROR` comes back. -/
theorem emit_capacity_invariant_witness :
    (add_data { initFP with dc := 156 } 7).1.dataset = ([] : List Int) ∧
    (add_data { initFP with dc := 156 } 7).2 = FATAL_ERROR := by
  have h := emit_capacity_invariant.2 { initFP with dc := 156 } 7 (by decide)
  rw [h.1]
  exact ⟨rfl, rfl⟩

/-- The C3 failing input: a table holding the two `.entry` placeholders
`A` and `B` (both kind `UNKNOWN_LABEL_TYPE`, linkage `ENTRY`), at `dc = 5`. -/
def stC3 : FPState :=
  { initFP with dc := 5, label_set := [⟨cs "A", 1, UNKNOWN_LABEL_TYPE, ENTRY⟩, ⟨cs "B", 2, UNKNOWN_LABEL_TYPE, ENTRY⟩] }

/-- C3: refuted — `add_label`'s finalization loop selects the first
`UNKNOWN_LABEL_TYPE` slot without comparing names.  Defining the label `B`
(as data, at `dc = 5`) finalizes the slot of `A` (it becomes kind `DATA`
with address 5) while `B`'s own placeholder is left untouched. -/
theorem add_label_finalizes_wrong_slot :
    (add_label stC3 (cs "B") DATA ENTRY).label_set =
      [⟨cs "A", 5, DATA, ENTRY⟩, ⟨cs "B", 2, UNKNOWN_LABEL_TYPE, ENTRY⟩] := by
  decide

/-- The operand token `rN`. -/
def regTok (n : Fin 8) : List Char := ['r', Char.ofNat (48 + (n : Nat))]

/-- The four two-operand opcodes that admit a register source. -/
def opOf4 : Fin 4 → Nat
  | 0 => MOV
  | 1 => CMP
  | 2 => ADD
  | 3 => SUB

/-- The state expected after encoding a two-register instruction: two words,
the title with both modes 3 and the shared register word
`(src << 6) | (dst << 2)`. -/
def twoRegResult (opcode : Nat) (a b : Fin 8) : FPState :=
  { initFP with ic := 2, ins_set := [titleWord opcode 3 3, (((a : Nat) * 64 + (b : Nat) * 4 : Nat) : Int)] }

/-- C4: for every two-operand instruction whose operands are both registers,
exactly two words are emitted: the title word with source and destination
modes 3, and one shared register word `(src << 6) | (dst << 2)` — the
destination register is OR-ed into the word already emitted for the source
register.  In particular `mov r3, r5` yields the words 60 and 212, whether
the handler is applied to the two tokens or the whole source line is
processed. -/
theorem two_register_operands_share_word :
    (∀ (a b : Fin 8) (k : Fin 4),
       handle_two_prms initFP [regTok a, regTok b] (opOf4 k) =
         (twoRegResult (opOf4 k) a b, 0)) ∧
    handle_two_prms initFP [cs "r3", cs "r5"] MOV =
      ({ initFP with ic := 2, ins_set := [60, 212] }, 0) ∧
    (processLine [] initFP (cs "mov r3, r5")).1 =
      { initFP with line_count := 1, ic := 2, ins_set := [60, 212] } := by
  decide

/-- C9 counterexample input/output: `Label.l_address` is an `unsigned char`,
so an `.entry` declaration on line 300 stores 300 % 256 = 44 and the
undefined-entry diagnostic is issued for line 44, not 300. -/
theorem entry_line_number_truncated_cex :
    ((endOfPassReport (add_label { initFP with line_count := 300 } (cs "K")
        UNKNOWN_LABEL_TYPE ENTRY)).msgs = [(44, undefinedEntryMsg)]) ∧
    (44 : Nat) ≠ 300 := by
  decide

theorem endReportGo_append (l1 l2 : List Label) (s : FPState) :
    endReportGo s (l1 ++ l2) = endReportGo (endReportGo s l1) l2 := by
  induction l1 generalizing s with
  | nil => rfl
  | cons l ls ih =>
    by_cases h : l.l_data_or_ins = UNKNOWN_LABEL_TYPE <;>
      simp [endReportGo, h, ih]

theorem endReportGo_no_unknown (ls : List Label) (s : FPState)
    (h : ∀ l ∈ ls, l.l_data_or_ins ≠ UNKNOWN_LABEL_TYPE) :
    endReportGo s ls = s := by
  induction ls with
  | nil => rfl
  | cons l ls ih =>
    have h1 := h l (by simp)
    simp [endReportGo, h1]
    exact ih (fun l hl => h l (by simp [hl]))

/-- C9 (amended): an `.entry K` with `K` not yet in the table inserts a
placeholder whose address field stores the declaration's line number
reduced mod 256 (the field is 8-bit), and the end-of-pass scan reports the
undefined entry at that stored number with the error flag raised — so the
message carries the exact declaration line whenever that line is ≤ 255. -/
theorem undefined_entry_reported_at_declaration_line :
    ∀ (s : FPState) (name : List Char),
      is_label_name name s.label_set = false →
      (∀ l ∈ s.label_set, l.l_data_or_ins ≠ UNKNOWN_LABEL_TYPE) →
      s.line_count ≤ 255 →
      (add_label s name UNKNOWN_LABEL_TYPE ENTRY).label_set =
        s.label_set ++ [⟨name, s.line_count, UNKNOWN_LABEL_TYPE, ENTRY⟩] ∧
      (endOfPassReport (add_label s name UNKNOWN_LABEL_TYPE ENTRY)).msgs =
        s.msgs ++ [(s.line_count, undefinedEntryMsg)] ∧
      (endOfPassReport (add_label s name UNKNOWN_LABEL_TYPE ENTRY)).error = true := by
  intro s name hfresh hnu hline
  have hmod : s.line_count % 256 = s.line_count := Nat.mod_eq_of_lt (by omega)
  have hne : (ENTRY = EXTERNAL) = False := eq_false (by decide)
  have hadd : add_label s name UNKNOWN_LABEL_TYPE ENTRY =
      { s with label_set := s.label_set ++ [⟨name, s.line_count, UNKNOWN_LABEL_TYPE, ENTRY⟩] } := by
    simp [add_label, hfresh, hne, hmod]
  rw [hadd]
  have hgo1 : endReportGo
        { s with label_set := s.label_set ++ [⟨name, s.line_count, UNKNOWN_LABEL_TYPE, ENTRY⟩] }
        s.label_set =
      { s with label_set := s.label_set ++ [⟨name, s.line_count, UNKNOWN_LABEL_TYPE, ENTRY⟩] } :=
    endReportGo_no_unknown s.label_set _ hnu
  have hrun : endOfPassReport
        { s with label_set := s.label_set ++ [⟨name, s.line_count, UNKNOWN_LABEL_TYPE, ENTRY⟩] } =
      reportAt
        { s with label_set := s.label_set ++ [⟨name, s.line_count, UNKNOWN_LABEL_TYPE, ENTRY⟩],
                 error := true }
        s.line_count undefinedEntryMsg := by
    show endReportGo _ (s.label_set ++ [⟨name, s.line_count, UNKNOWN_LABEL_TYPE, ENTRY⟩]) = _
    rw [endReportGo_append, hgo1]
    simp [endReportGo, reportAt]
  rw [hrun]
  exact ⟨rfl, by simp [reportAt], rfl⟩

/-- C9 witness: at declaration line 10 the report is issued for line 10. -/
theorem undefined_entry_reported_witness :
    (endOfPassReport (add_label { initFP with line_count := 10 } (cs "K")
        UNKNOWN_LABEL_TYPE ENTRY)).msgs = [(10, undefinedEntryMsg)] := by
  have h := undefined_entry_reported_at_declaration_line
    { initFP with line_count := 10 } (cs "K") (by decide) (by decide) (by decide)
  simpa using h.2.1

/-- The `.ent` lines `flush_all_entries` produces for a table: every label
of linkage `ENTRY`, in table order, at its section-adjusted address. -/
def entLines (labels : List Label) (icf : Nat) : List (List Char × List Char) :=
  (labels.filter (fun l => l.l_ent_or_ext = ENTRY)).map
    (fun l => (l.l_name, to_base4_addr (absValOf icf l)))

/-- C7 counterexample: a symbol of kind `UNKNOWN_LABEL_TYPE` (an undefined
`.entry`) with linkage `ENTRY` IS written to `.ent` — `flush_all_entries`
never consults the kind.  (The stored address 7, a line number, is rendered
as 100 + 7 = `bccd`.) -/
theorem flush_entries_writes_unknown_kind :
    flush_all_entries [⟨cs "K", 7, UNKNOWN_LABEL_TYPE, ENTRY⟩] 0 none =
      some [(cs "K", cs "bccd")] ∧
    (⟨cs "K", 7, UNKNOWN_LABEL_TYPE, ENTRY⟩ : Label).l_data_or_ins = UNKNOWN_LABEL_TYPE := by
  decide

theorem flush_all_entries_characterization (labels : List Label) (icf : Nat) :
    ∀ ent0 : OutFile,
      flush_all_entries labels icf ent0 =
        if entLines labels icf = [] then ent0
        else some (ent0.getD [] ++ entLines labels icf) := by
  induction labels with
  | nil => intro ent0; simp [flush_all_entries, entLines]
  | cons l ls ih =>
    intro ent0
    by_cases h : l.l_ent_or_ext = ENTRY
    · have hlines : entLines (l :: ls) icf =
          (l.l_name, to_base4_addr (absValOf icf l)) :: entLines ls icf := by
        simp [entLines, h]
      rw [hlines]
      show flush_all_entries (l :: ls) icf ent0 = _
      unfold flush_all_entries
      rw [if_pos h]
      rw [ih (writeLazyLine ent0 l.l_name (absValOf icf l))]
      by_cases h2 : entLines ls icf = []
      · simp [h2, writeLazyLine]
        cases ent0 <;> simp
      · simp [h2, writeLazyLine]
        cases ent0 <;> simp
    · have hlines : entLines (l :: ls) icf = entLines ls icf := by
        simp [entLines, h]
      rw [hlines]
      show flush_all_entries (l :: ls) icf ent0 = _
      unfold flush_all_entries
      rw [if_neg h]
      exact ih ent0

/-- C7 (amended): the lines written to `.ent` are exactly the symbols whose
linkage is `ENTRY` — regardless of kind, so a still-`unknown` `.entry` is
written too (its stored line number acting as the offset) — in symbol-table
insertion order, each with address `100 + offset` (`100 + IC_final + offset`
for kind data); and the file is only created when such a symbol exists. -/
theorem ent_lines_are_entry_linkage_symbols (labels : List Label) (icf : Nat) :
    flush_all_entries labels icf none =
      if entLines labels icf = [] then none else some (entLines labels icf) := by
  rw [flush_all_entries_characterization labels icf none]
  rfl

/-- C5: macro bodies are captured and replayed verbatim.  Part one: a line
whose first token names a table macro (outside any definition, not blank or
comment, not a keyword line) contributes exactly the macro's captured lines
to the `.am` output, in place of itself, leaving the table unchanged.  Part
two: inside a `mcro` block every such line is appended to the open macro's
body byte-for-byte, and nothing is written to the output. -/
theorem mcro_expansion_verbatim :
    (∀ (st : McroState) (line : List Char) (m : Mcro),
       st.inside = false →
       line.headD '\x00' ≠ '\n' → line.headD '\x00' ≠ ';' →
       firstWordOf line ≠ [] →
       firstWordOf line ≠ cs "mcro" → firstWordOf line ≠ cs "mcroend" →
       findMcro st.table (firstWordOf line) = some m →
       (mcroStep st line).out = st.out ++ m.lines ∧
       (mcroStep st line).table = st.table) ∧
    (∀ (st : McroState) (line : List Char) (c : Mcro),
       st.inside = true → st.current = some c →
       line.headD '\x00' ≠ '\n' → line.headD '\x00' ≠ ';' →
       firstWordOf line ≠ [] →
       firstWordOf line ≠ cs "mcro" → firstWordOf line ≠ cs "mcroend" →
       (mcroStep st line).current = some ⟨c.name, c.lines ++ [line]⟩ ∧
       (mcroStep st line).out = st.out) := by
  constructor
  · intro st line m hin h1 h2 hw hkm hke hfind
    rw [List.headD_eq_head?] at h1 h2
    by_cases hlen : line.length - (if line.getLast? = some '\n' then 1 else 0) > VALID_LINE <;>
      simp [mcroStep, hlen, h1, h2, hw, hkm, hke, hin, hfind, mcroReport]
  · intro st line c hin hcur h1 h2 hw hkm hke
    rw [List.headD_eq_head?] at h1 h2
    by_cases hlen : line.length - (if line.getLast? = some '\n' then 1 else 0) > VALID_LINE <;>
      simp [mcroStep, hlen, h1, h2, hw, hkm, hke, hin, hcur, mcroReport]

/-- An expander state holding the macro `M1` with one captured body line. -/
def stC5 : McroState := { initMcro with table := [⟨cs "M1", [cs " add r1, r2\n"]⟩] }

/-- An expander state inside an open definition of `M2`. -/
def stC5in : McroState :=
  { initMcro with inside := true, current := some ⟨cs "M2", [cs "x\n"]⟩ }

/-- C5 witness: invoking `M1` emits its captured line verbatim, and a body
line is appended verbatim to the open macro. -/
theorem mcro_expansion_verbatim_witness :
    (mcroStep stC5 (cs "M1\n")).out = [cs " add r1, r2\n"] ∧
    (mcroStep stC5in (cs "inc r3\n")).current =
      some ⟨cs "M2", [cs "x\n", cs "inc r3\n"]⟩ := by
  constructor
  · have h := mcro_expansion_verbatim.1 stC5 (cs "M1\n") ⟨cs "M1", [cs " add r1, r2\n"]⟩
      (by decide) (by decide) (by decide) (by decide) (by decide) (by decide) (by decide)
    simpa [stC5] using h.1
  · have h := mcro_expansion_verbatim.2 stC5in (cs "inc r3\n") ⟨cs "M2", [cs "x\n"]⟩
      (by decide) (by decide) (by decide) (by decide) (by decide) (by decide) (by decide)
    simpa [stC5in] using h.1

/-! ### Lemmas about the pending-resolution loop -/

theorem getD_set_ne {α : Type} (l : List α) (i j : Nat) (a d : α) (hij : i ≠ j) :
    (l.set i a).getD j d = l.getD j d := by
  induction l generalizing i j with
  | nil => simp
  | cons x xs ih =>
    cases i with
    | zero =>
      cases j with
      | zero => omega
      | succ j => simp [List.set]
    | succ i =>
      cases j with
      | zero => simp [List.set]
      | succ j =>
        simp only [List.set, List.getD_cons_succ]
        exact ih i j (by omega)

theorem getD_set_self {α : Type} (l : List α) (i : Nat) (a d : α) (h : i < l.length) :
    (l.set i a).getD i d = a := by
  induction l generalizing i with
  | nil => simp at h
  | cons x xs ih =>
    cases i with
    | zero => simp [List.set]
    | succ i =>
      simp only [List.set, List.getD_cons_succ]
      exact ih i (by simpa using h)

theorem getD_cases {α : Type} (l : List α) (i : Nat) (d : α) :
    l.getD i d ∈ l ∨ l.getD i d = d := by
  induction l generalizing i with
  | nil => right; rfl
  | cons x xs ih =>
    cases i with
    | zero => left; rw [List.getD_cons_zero]; exact List.mem_cons_self x xs
    | succ i =>
      rw [List.getD_cons_succ]
      rcases ih i with h | h
      · exact Or.inl (List.mem_cons_of_mem _ h)
      · exact Or.inr h

theorem find_label_name (labels : List Label) (n : List Char) (lab : Label)
    (h : find_label labels n = some lab) : lab.l_name = n := by
  have := List.find?_some h
  simpa using this

/-- Whether a pending reference resolves to an external symbol. -/
def isExternalUse (labels : List Label) (p : Pending) : Bool :=
  match find_label labels p.label_p_name with
  | some lab => lab.l_ent_or_ext = EXTERNAL
  | none => false

/-- The `.ext` line for one external use: the name and the 4-digit base-4
rendering of `100 + word_offset`. -/
def extUseLine (p : Pending) : List Char × List Char :=
  (p.label_p_name, to_base4_addr ((ORG_ADDRESS + p.ic_index : Nat) : Int))

theorem patch_fst_external (ins : List Int) (idx : Nat) (lab : Label)
    (icf : Nat) (ext : OutFile) (pe : Bool) (hx : lab.l_ent_or_ext = EXTERNAL) :
    (patch_word_with_label ins idx lab icf ext pe).1 =
      ins.set idx (clearLow10 (ins.getD idx 0) + 1) := by
  unfold patch_word_with_label
  split
  · rfl
  · next h => exact absurd hx h

theorem patch_fst_internal (ins : List Int) (idx : Nat) (lab : Label)
    (icf : Nat) (ext : OutFile) (pe : Bool) (hx : ¬lab.l_ent_or_ext = EXTERNAL) :
    (patch_word_with_label ins idx lab icf ext pe).1 =
      ins.set idx (clearLow10 (ins.getD idx 0) + absValOf icf lab % 256 * 4 + 2) := by
  unfold patch_word_with_label
  split
  · next h => exact absurd h hx
  · simp [hx]

theorem patch_fst_length (ins : List Int) (idx : Nat) (lab : Label)
    (icf : Nat) (ext : OutFile) (pe : Bool) :
    (patch_word_with_label ins idx lab icf ext pe).1.length = ins.length := by
  by_cases hx : lab.l_ent_or_ext = EXTERNAL
  · rw [patch_fst_external ins idx lab icf ext pe hx, List.length_set]
  · rw [patch_fst_internal ins idx lab icf ext pe hx, List.length_set]

theorem resolveLoop_ext_eq (labels : List Label) (icf : Nat) :
    ∀ (ps : List Pending) (st : SPState),
      (resolveLoop labels icf st ps).ext =
        (if st.ext = none ∧ (ps.filter (isExternalUse labels)).map extUseLine = [] then none
         else some (st.ext.getD [] ++ (ps.filter (isExternalUse labels)).map extUseLine)) := by
  intro ps
  induction ps with
  | nil =>
    intro st
    cases h : st.ext <;> simp [resolveLoop, h]
  | cons p ps ih =>
    intro st
    cases hfl : find_label labels p.label_p_name with
    | none =>
      have hext : isExternalUse labels p = false := by simp [isExternalUse, hfl]
      simp only [resolveLoop, hfl, List.filter_cons, hext]
      rw [ih]
      rfl
    | some lab =>
      by_cases hx : lab.l_ent_or_ext = EXTERNAL
      · have hext : isExternalUse labels p = true := by simp [isExternalUse, hfl, hx]
        have hname : lab.l_name = p.label_p_name := find_label_name labels _ lab hfl
        simp only [resolveLoop, hfl, patch_word_with_label, hx, if_pos,
          List.filter_cons, hext, if_true]
        rw [ih]
        simp only [writeLazyLine, hname]
        cases hse : st.ext with
        | none => simp [extUseLine, List.map_cons]
        | some lines => simp [extUseLine, List.map_cons]
      · have hext : isExternalUse labels p = false := by simp [isExternalUse, hfl, hx]
        simp only [resolveLoop, hfl, patch_word_with_label, hx, List.filter_cons, hext]
        rw [ih]
        rfl

theorem resolveLoop_untouched (labels : List Label) (icf : Nat) :
    ∀ (ps : List Pending) (st : SPState) (j : Nat),
      (∀ p ∈ ps, p.ic_index ≠ j) →
      (resolveLoop labels icf st ps).ins.getD j 0 = st.ins.getD j 0 := by
  intro ps
  induction ps with
  | nil => intro st j _; rfl
  | cons p ps ih =>
    intro st j hne
    have hj : p.ic_index ≠ j := hne p (List.mem_cons_self p ps)
    have htail : ∀ q ∈ ps, q.ic_index ≠ j :=
      fun q hq => hne q (List.mem_cons_of_mem p hq)
    cases hfl : find_label labels p.label_p_name with
    | none =>
      have hstep : resolveLoop labels icf st (p :: ps) =
          resolveLoop labels icf { st with had_error := true } ps := by
        simp [resolveLoop, hfl]
      rw [hstep]
      exact ih _ j htail
    | some lab =>
      rcases hpatch : patch_word_with_label st.ins p.ic_index lab icf st.ext st.had_error
        with ⟨ins2, ext2, he2⟩
      have hstep : resolveLoop labels icf st (p :: ps) =
          resolveLoop labels icf ⟨ins2, ext2, he2⟩ ps := by
        simp [resolveLoop, hfl, hpatch]
      rw [hstep, ih ⟨ins2, ext2, he2⟩ j htail]
      show ins2.getD j 0 = st.ins.getD j 0
      by_cases hx : lab.l_ent_or_ext = EXTERNAL
      · have h1 := patch_fst_external st.ins p.ic_index lab icf st.ext st.had_error hx
        rw [hpatch] at h1
        have h2 : ins2 = st.ins.set p.ic_index (clearLow10 (st.ins.getD p.ic_index 0) + 1) := h1
        rw [h2]
        exact getD_set_ne st.ins p.ic_index j _ 0 hj
      · have h1 := patch_fst_internal st.ins p.ic_index lab icf st.ext st.had_error hx
        rw [hpatch] at h1
        have h2 : ins2 = st.ins.set p.ic_index
            (clearLow10 (st.ins.getD p.ic_index 0) + absValOf icf lab % 256 * 4 + 2) := h1
        rw [h2]
        exact getD_set_ne st.ins p.ic_index j _ 0 hj

theorem clearLow10_of_bounded (w : Int) (h0 : 0 ≤ w) (h1 : w < 1024) :
    clearLow10 w = 0 := by
  unfold clearLow10
  rw [Int.emod_eq_of_lt h0 h1]
  omega

theorem patch_word_preserves_bound (ins : List Int) (idx : Nat) (lab : Label)
    (icf : Nat) (ext : OutFile) (pe : Bool)
    (hb : ∀ w ∈ ins, 0 ≤ w ∧ w < 1024) :
    ∀ w ∈ (patch_word_with_label ins idx lab icf ext pe).1, 0 ≤ w ∧ w < 1024 := by
  have hword : 0 ≤ ins.getD idx 0 ∧ ins.getD idx 0 < 1024 := by
    rcases getD_cases ins idx 0 with h | h
    · exact hb _ h
    · rw [h]; omega
  have hclear : clearLow10 (ins.getD idx 0) = 0 :=
    clearLow10_of_bounded _ hword.1 hword.2
  intro w hw
  by_cases hx : lab.l_ent_or_ext = EXTERNAL
  · rw [patch_fst_external ins idx lab icf ext pe hx] at hw
    rcases List.mem_or_eq_of_mem_set hw with h | h
    · exact hb _ h
    · rw [h, hclear]
      constructor <;> omega
  · rw [patch_fst_internal ins idx lab icf ext pe hx] at hw
    rcases List.mem_or_eq_of_mem_set hw with h | h
    · exact hb _ h
    · have hm1 : 0 ≤ absValOf icf lab % 256 := Int.emod_nonneg _ (by omega)
      have hm2 : absValOf icf lab % 256 < 256 := Int.emod_lt_of_pos _ (by omega)
      rw [h, hclear]
      constructor <;> omega

theorem resolveLoop_external_value (labels : List Label) (icf : Nat) :
    ∀ (ps : List Pending) (st : SPState),
      (∀ w ∈ st.ins, 0 ≤ w ∧ w < 1024) →
      (ps.map Pending.ic_index).Nodup →
      ∀ p ∈ ps, isExternalUse labels p = true → p.ic_index < st.ins.length →
      (resolveLoop labels icf st ps).ins.getD p.ic_index 0 = 1 := by
  intro ps
  induction ps with
  | nil => intro st _ _ p hp; exact absurd hp (List.not_mem_nil p)
  | cons q ps ih =>
    intro st hb hnd p hp hext hlt
    have hndtail : (ps.map Pending.ic_index).Nodup := (List.nodup_cons.mp hnd).2
    have hndq : ∀ r ∈ ps, r.ic_index ≠ q.ic_index := by
      intro r hr hEq
      exact (List.nodup_cons.mp hnd).1 (by rw [← hEq]; exact List.mem_map_of_mem _ hr)
    rcases List.mem_cons.mp hp with heq | hp
    · -- p is the head: its word is patched to 1 and never touched again
      subst heq
      have hlab : ∃ lab, find_label labels p.label_p_name = some lab ∧
          lab.l_ent_or_ext = EXTERNAL := by
        unfold isExternalUse at hext
        cases hfl : find_label labels p.label_p_name with
        | none => rw [hfl] at hext; simp at hext
        | some lab =>
          rw [hfl] at hext
          simp only [decide_eq_true_eq] at hext
          exact ⟨lab, rfl, hext⟩
      obtain ⟨lab, hfl, hx⟩ := hlab
      have hword : 0 ≤ st.ins.getD p.ic_index 0 ∧ st.ins.getD p.ic_index 0 < 1024 := by
        rcases getD_cases st.ins p.ic_index 0 with h | h
        · exact hb _ h
        · rw [h]; omega
      rcases hpatch : patch_word_with_label st.ins p.ic_index lab icf st.ext st.had_error
        with ⟨ins2, ext2, he2⟩
      have hstep : resolveLoop labels icf st (p :: ps) =
          resolveLoop labels icf ⟨ins2, ext2, he2⟩ ps := by
        simp [resolveLoop, hfl, hpatch]
      have h1 := patch_fst_external st.ins p.ic_index lab icf st.ext st.had_error hx
      rw [hpatch] at h1
      have h2 : ins2 = st.ins.set p.ic_index (clearLow10 (st.ins.getD p.ic_index 0) + 1) := h1
      rw [hstep, resolveLoop_untouched labels icf ps ⟨ins2, ext2, he2⟩ p.ic_index hndq]
      show ins2.getD p.ic_index 0 = 1
      rw [h2, getD_set_self _ _ _ _ hlt, clearLow10_of_bounded _ hword.1 hword.2]
      omega
    · -- p sits deeper in the list; one step preserves the preconditions
      cases hfl : find_label labels q.label_p_name with
      | none =>
        have hstep : resolveLoop labels icf st (q :: ps) =
            resolveLoop labels icf { st with had_error := true } ps := by
          simp [resolveLoop, hfl]
        rw [hstep]
        exact ih { st with had_error := true } hb hndtail p hp hext hlt
      | some lab =>
        rcases hpatch : patch_word_with_label st.ins q.ic_index lab icf st.ext st.had_error
          with ⟨ins2, ext2, he2⟩
        have hstep : resolveLoop labels icf st (q :: ps) =
            resolveLoop labels icf ⟨ins2, ext2, he2⟩ ps := by
          simp [resolveLoop, hfl, hpatch]
        have hb2 : ∀ w ∈ ins2, 0 ≤ w ∧ w < 1024 := by
          have h := patch_word_preserves_bound st.ins q.ic_index lab icf st.ext st.had_error hb
          rw [hpatch] at h
          exact h
        have hlen : ins2.length = st.ins.length := by
          have h := patch_fst_length st.ins q.ic_index lab icf st.ext st.had_error
          rw [hpatch] at h
          exact h
        rw [hstep]
        exact ih ⟨ins2, ext2, he2⟩ hb2 hndtail p hp hext (by rw [hlen]; exact hlt)

/-- C6: resolving the pending list patches every word referenced through an
external symbol to the value 1 — absolute value 0 in bits [9:2] and ARE=E
(binary 01) in the low two bits — and the `.ext` file receives exactly one
`<name> <base-4 of (100 + word_offset)>` line per external use, in pending
(creation) order; the file stays unopened (`none`) exactly when no external
use exists. -/
theorem external_reference_patch_and_ext_lines :
    ∀ (labels : List Label) (icf : Nat) (ins : List Int) (ps : List Pending),
      (∀ w ∈ ins, 0 ≤ w ∧ w < 1024) →
      (ps.map Pending.ic_index).Nodup →
      ((resolveLoop labels icf ⟨ins, none, false⟩ ps).ext =
        (if ps.filter (isExternalUse labels) = [] then none
         else some ((ps.filter (isExternalUse labels)).map extUseLine))) ∧
      (∀ p ∈ ps, isExternalUse labels p = true → p.ic_index < ins.length →
        (resolveLoop labels icf ⟨ins, none, false⟩ ps).ins.getD p.ic_index 0 = 1) := by
  intro labels icf ins ps hb hnd
  constructor
  · rw [resolveLoop_ext_eq]
    simp
  · intro p hp hext hlt
    exact resolveLoop_external_value labels icf ps ⟨ins, none, false⟩ hb hnd p hp hext hlt

/-- C6 witness (scenario: `.extern X` then `jmp X`): the operand word at
offset 1 becomes 1 and `.ext` holds the single line `X bcbb` (address 101). -/
theorem external_reference_witness :
    (resolveLoop [⟨cs "X", 0, INS, EXTERNAL⟩] 2 ⟨[580, 0], none, false⟩
        [⟨cs "X", 1, 2⟩]).ext = some [(cs "X", cs "bcbb")] ∧
    (resolveLoop [⟨cs "X", 0, INS, EXTERNAL⟩] 2 ⟨[580, 0], none, false⟩
        [⟨cs "X", 1, 2⟩]).ins.getD 1 0 = 1 := by
  have h := external_reference_patch_and_ext_lines [⟨cs "X", 0, INS, EXTERNAL⟩] 2
    [580, 0] [⟨cs "X", 1, 2⟩] (by decide) (by decide)
  refine ⟨?_, h.2 ⟨cs "X", 1, 2⟩ (by decide) (by decide) (by decide)⟩
  rw [h.1]
  decide

/-- A pending reference that Pass 2 resolves without a non-fatal error:
its name is found, and it is either external or its absolute value fits the
8-bit operand field. -/
def pendingResolvesClean (labels : List Label) (icf : Nat) (p : Pending) : Prop :=
  ∃ lab, find_label labels p.label_p_name = some lab ∧
    (lab.l_ent_or_ext = EXTERNAL ∨ absValOf icf lab ≤ 255)

theorem patch_third_clean (ins : List Int) (idx : Nat) (lab : Label)
    (icf : Nat) (ext : OutFile) (pe : Bool)
    (hok : lab.l_ent_or_ext = EXTERNAL ∨ absValOf icf lab ≤ 255) :
    (patch_word_with_label ins idx lab icf ext pe).2.2 = pe := by
  have hcond : ¬(lab.l_ent_or_ext ≠ EXTERNAL ∧
      (if lab.l_ent_or_ext = EXTERNAL then (0 : Int) else absValOf icf lab) > 255) := by
    rcases hok with h | h
    · simp [h]
    · by_cases hx : lab.l_ent_or_ext = EXTERNAL
      · simp [hx]
      · simp [hx]
        omega
  simp only [patch_word_with_label]
  rw [if_neg hcond]
  split
  all_goals rfl

theorem resolveLoop_no_error (labels : List Label) (icf : Nat) :
    ∀ (ps : List Pending) (st : SPState),
      (∀ p ∈ ps, pendingResolvesClean labels icf p) →
      (resolveLoop labels icf st ps).had_error = st.had_error := by
  intro ps
  induction ps with
  | nil => intro st _; rfl
  | cons p ps ih =>
    intro st hok
    obtain ⟨lab, hfl, hcl⟩ := hok p (List.mem_cons_self p ps)
    rcases hpatch : patch_word_with_label st.ins p.ic_index lab icf st.ext st.had_error
      with ⟨ins2, ext2, he2⟩
    have hstep : resolveLoop labels icf st (p :: ps) =
        resolveLoop labels icf ⟨ins2, ext2, he2⟩ ps := by
      simp [resolveLoop, hfl, hpatch]
    have hhe : he2 = st.had_error := by
      have h := patch_third_clean st.ins p.ic_index lab icf st.ext st.had_error hcl
      rw [hpatch] at h
      exact h
    rw [hstep, ih ⟨ins2, ext2, he2⟩ (fun q hq => hok q (List.mem_cons_of_mem p hq))]
    exact hhe

/-- C1: the keep-or-remove discipline of `second_pass`.  If Pass 1 handed in
a set error flag, or the pass itself recorded a non-fatal error, then none
of `.ob`, `.ent`, `.ext` remains and `*p_error` is set.  If no non-fatal
error occurred in either pass (entering flag clear, every pending reference
resolving cleanly), the written outputs are retained: `.ob` is present, the
`.ent`/`.ext` files are exactly what was flushed/logged, and `*p_error`
stays clear. -/
theorem second_pass_error_discipline :
    ∀ (ins : List Int) (icf : Nat) (dataset : List Int) (dcf : Nat)
      (labels : List Label) (ps : List Pending) (pIn : Bool),
      ((pIn = true ∨ (second_pass ins icf dataset dcf labels ps pIn).had_error = true) →
        (second_pass ins icf dataset dcf labels ps pIn).ob = none ∧
        (second_pass ins icf dataset dcf labels ps pIn).ent = none ∧
        (second_pass ins icf dataset dcf labels ps pIn).ext = none ∧
        (second_pass ins icf dataset dcf labels ps pIn).p_error = true) ∧
      (pIn = false → (∀ p ∈ ps, pendingResolvesClean labels icf p) →
        (second_pass ins icf dataset dcf labels ps pIn).had_error = false ∧
        (second_pass ins icf dataset dcf labels ps pIn).ob.isSome = true ∧
        (second_pass ins icf dataset dcf labels ps pIn).p_error = false ∧
        (second_pass ins icf dataset dcf labels ps pIn).ent =
          flush_all_entries labels icf none ∧
        (second_pass ins icf dataset dcf labels ps pIn).ext =
          (resolveLoop labels icf ⟨ins, none, false⟩ ps).ext) := by
  intro ins icf dataset dcf labels ps pIn
  constructor
  · intro hcond
    have hhe : (second_pass ins icf dataset dcf labels ps pIn).had_error =
        (resolveLoop labels icf ⟨ins, none, false⟩ ps).had_error := by
      simp only [second_pass]
      split <;> rfl
    have hcond2 : (resolveLoop labels icf ⟨ins, none, false⟩ ps).had_error = true ∨ pIn = true := by
      rcases hcond with h | h
      · exact Or.inr h
      · exact Or.inl (by rw [← hhe]; exact h)
    simp only [second_pass]
    rw [if_pos (by simpa using hcond2)]
    exact ⟨rfl, rfl, rfl, rfl⟩
  · intro hin hclean
    have hres : (resolveLoop labels icf ⟨ins, none, false⟩ ps).had_error = false :=
      resolveLoop_no_error labels icf ps ⟨ins, none, false⟩ hclean
    have hcond : ¬((resolveLoop labels icf ⟨ins, none, false⟩ ps).had_error = true ∨ pIn = true) := by
      rw [hres, hin]
      simp
    simp only [second_pass]
    rw [if_neg (by simpa using hcond)]
    simp [hres, hin]

/-- C1 witness: an undefined pending label (a Pass-2 non-fatal error) makes
`second_pass` remove the object file and set `*p_error`. -/
theorem second_pass_error_discipline_witness :
    (second_pass [0] 1 [] 0 [] [⟨cs "X", 0, 1⟩] false).ob = none ∧
    (second_pass [0] 1 [] 0 [] [⟨cs "X", 0, 1⟩] false).p_error = true := by
  have h := (second_pass_error_discipline [0] 1 [] 0 [] [⟨cs "X", 0, 1⟩] false).1
    (Or.inr (by decide))
  exact ⟨h.1, h.2.2.2⟩

/-! ### Lemmas about the `.mat` value loop -/

/-- The pure value `is_valid_num` assigns to a token in `DATA` context. -/
def validNumD? (t : List Char) : Option Int :=
  match parseLong t with
  | (num, rest) =>
    if rest ≠ [] then none
    else if num > MAX_NUM_D ∨ num < MIN_NUM_D then none
    else some num

theorem is_valid_num_clean (s : FPState) (t : List Char) (n : Int)
    (h : validNumD? t = some n) : is_valid_num s t DATA = (s, some n) := by
  unfold validNumD? at h
  rcases hp : parseLong t with ⟨num, rest⟩
  rw [hp] at h
  simp only at h
  by_cases h1 : rest ≠ []
  · rw [if_pos h1] at h
    exact absurd h (by simp)
  · rw [if_neg h1] at h
    by_cases h2 : num > MAX_NUM_D ∨ num < MIN_NUM_D
    · rw [if_pos h2] at h
      exact absurd h (by simp)
    · rw [if_neg h2] at h
      have hn : num = n := by injection h
      subst hn
      simp only [is_valid_num, hp]
      rw [if_neg h1]
      simp [h2]

theorem zeroFill_clean :
    ∀ (m : Nat) (s : FPState), s.dc + s.ic + m ≤ MEM_AVAIL_WORDS →
      zeroFill s m =
        ({ s with dc := s.dc + m, dataset := s.dataset ++ List.replicate m 0 }, 0) := by
  intro m
  induction m with
  | zero => intro s _; simp [zeroFill]
  | succ m ih =>
    intro s h
    have hne : ¬(s.dc + s.ic = MEM_AVAIL_WORDS) := by
      unfold MEM_AVAIL_WORDS at *
      omega
    simp only [zeroFill, add_data]
    rw [if_neg hne]
    simp only []
    rw [if_neg (by decide : ¬((0 : Int) = FATAL_ERROR))]
    rw [ih _ (by simp; omega)]
    have hdc : s.dc + 1 + m = s.dc + (m + 1) := by omega
    simp [hdc, List.replicate_succ]

theorem matLoop_clean :
    ∀ (tokens : List (List Char)) (vals : List Int) (s : FPState) (msize : Nat),
      List.Forall₂ (fun t v => validNumD? t = some v) tokens vals →
      tokens.length ≤ msize →
      s.dc + s.ic + msize ≤ MEM_AVAIL_WORDS →
      matLoop s tokens msize =
        ({ s with dc := s.dc + msize,
                  dataset := s.dataset ++ vals ++ List.replicate (msize - tokens.length) 0 }, 0) := by
  intro tokens
  induction tokens with
  | nil =>
    intro vals s msize hf _ hcap
    cases hf
    simp only [matLoop]
    rw [zeroFill_clean msize s hcap]
    simp
  | cons t ts ih =>
    intro vals s msize hf hlen hcap
    cases hf with
    | cons hpv hf2 =>
      cases msize with
      | zero => simp at hlen
      | succ m =>
        have hne : ¬(s.dc + s.ic = MEM_AVAIL_WORDS) := by
          unfold MEM_AVAIL_WORDS at *
          omega
        simp only [matLoop]
        rw [is_valid_num_clean s t _ hpv]
        simp only [add_data]
        rw [if_neg hne]
        simp only []
        rw [if_neg (by decide : ¬((0 : Int) = FATAL_ERROR))]
        rw [ih _ _ m hf2 (by simpa using hlen) (by simp; omega)]
        have hdc : s.dc + 1 + m = s.dc + (m + 1) := by omega
        simp [hdc, List.append_assoc]

theorem matLoop_over :
    ∀ (msize : Nat) (tokens : List (List Char)) (vals : List Int) (s : FPState),
      List.Forall₂ (fun t v => validNumD? t = some v) (tokens.take msize) vals →
      msize < tokens.length →
      s.dc + s.ic + msize ≤ MEM_AVAIL_WORDS →
      matLoop s tokens msize =
        (reportE { s with dc := s.dc + msize, dataset := s.dataset ++ vals }
          "There are unnecessary parameter(s), overflow from the defined matrix", 0) := by
  intro msize
  induction msize with
  | zero =>
    intro tokens vals s hf hlen _
    cases tokens with
    | nil => simp at hlen
    | cons t ts =>
      simp only [List.take_zero] at hf
      cases hf
      simp [matLoop]
  | succ m ih =>
    intro tokens vals s hf hlen hcap
    cases tokens with
    | nil => simp at hlen
    | cons t ts =>
      rw [List.take_succ_cons] at hf
      cases hf with
      | cons hpv hf2 =>
        have hne : ¬(s.dc + s.ic = MEM_AVAIL_WORDS) := by
          unfold MEM_AVAIL_WORDS at *
          omega
        simp only [matLoop]
        rw [is_valid_num_clean s t _ hpv]
        simp only [add_data]
        rw [if_neg hne]
        simp only []
        rw [if_neg (by decide : ¬((0 : Int) = FATAL_ERROR))]
        rw [ih ts _ _ hf2 (by simpa using hlen) (by simp; omega)]
        have hdc : s.dc + 1 + m = s.dc + (m + 1) := by omega
        simp [reportE, reportAt, hdc, List.append_assoc]

/-- C8: semantics of a well-formed `.mat [rows][cols]` directive.  With a
valid definition token, valid comma structure, enough memory, and k value
tokens each parsing to an in-range integer: if k ≤ rows*cols, DC grows by
exactly rows*cols and the data image gains the k values in order followed
by rows*cols − k zero words; if k > rows*cols, the first rows*cols values
are stored and the surplus raises the overflow error.  Concretely
`M: .mat [2][3] 1, 2, 3` adds [1,2,3,0,0,0] and DC += 6, and the label `M`
(added by `first_pass` before the directive handler runs) gets kind data
with offset equal to the DC value before the directive. -/
theorem mat_directive_fill_semantics :
    (∀ (s : FPState) (rest md rest2 : List Char) (tks : List (List Char))
       (row col : Int) (vals : List Int) (msize : Nat),
      md = copyFirstWord rest (WORD_LEN + 1) →
      rest2 = deleteWhite (rest.drop md.length) →
      tks = tokenize commaWs rest2 →
      msize = row.toNat * col.toNat →
      check_mat_def s md DATA = (s, some (row, col)) →
      0 < msize →
      is_valid_commas s rest2 = (s, true) →
      s.dc + s.ic + msize ≤ MEM_AVAIL_WORDS →
      (List.Forall₂ (fun t v => validNumD? t = some v) tks vals →
        tks.length ≤ msize →
        mat_cmd s rest =
          ({ s with dc := s.dc + msize,
                    dataset := s.dataset ++ vals ++ List.replicate (msize - tks.length) 0 }, 0)) ∧
      (List.Forall₂ (fun t v => validNumD? t = some v) (tks.take msize) vals →
        msize < tks.length →
        mat_cmd s rest = (reportE { s with dc := s.dc + msize, dataset := s.dataset ++ vals }
          "There are unnecessary parameter(s), overflow from the defined matrix", 0))) ∧
    mat_cmd initFP (cs "[2][3] 1, 2, 3") =
      ({ initFP with dc := 6, dataset := ([1, 2, 3, 0, 0, 0] : List Int) }, 0) ∧
    (add_label { initFP with dc := 4 } (cs "M") DATA REGULAR).label_set =
      [⟨cs "M", 4, DATA, REGULAR⟩] := by
  refine ⟨?_, by decide, by decide⟩
  intro s rest md rest2 tks row col vals msize hmd hrest2 htks hmsize hchk hpos hcommas hcap
  have hrun : mat_cmd s rest = matLoop s tks msize := by
    subst hmd hrest2 htks
    simp only [mat_cmd, hchk]
    rw [if_neg (by omega : ¬(row.toNat * col.toNat = 0))]
    rw [hcommas]
    rw [hmsize]
  constructor
  · intro hf hlen
    rw [hrun]
    exact matLoop_clean tks vals s msize hf hlen hcap
  · intro hf hlen
    rw [hrun]
    exact matLoop_over msize tks vals s hf hlen hcap

/-- C8 witness: `.mat [2][3] 1, 2` (two values for six cells) zero-fills the
remaining four cells; all hypotheses of the general statement hold here. -/
theorem mat_directive_fill_semantics_witness :
    mat_cmd initFP (cs "[2][3] 1, 2") =
      ({ initFP with dc := 6, dataset := ([1, 2, 0, 0, 0, 0] : List Int) }, 0) := by
  have h := (mat_directive_fill_semantics.1 initFP (cs "[2][3] 1, 2")
      (copyFirstWord (cs "[2][3] 1, 2") (WORD_LEN + 1))
      (deleteWhite ((cs "[2][3] 1, 2").drop
        (copyFirstWord (cs "[2][3] 1, 2") (WORD_LEN + 1)).length))
      (tokenize commaWs (deleteWhite ((cs "[2][3] 1, 2").drop
        (copyFirstWord (cs "[2][3] 1, 2") (WORD_LEN + 1)).length)))
      2 3 [1, 2] 6 rfl rfl rfl (by decide) (by decide) (by decide) (by decide)
      (by decide)).1
    (List.Forall₂.cons (by decide) (List.Forall₂.cons (by decide) List.Forall₂.nil))
    (by decide)
  rw [h]
  decide

/-! ### Lemmas for the labeled `.entry`/`.extern` frame property -/

theorem isSpaceC_cases (c : Char) (h : isSpaceC c = true) :
    c = ' ' ∨ c = '\t' ∨ c = '\n' ∨ c = '\x0b' ∨ c = '\x0c' ∨ c = '\r' := by
  have h2 := h
  simp [isSpaceC] at h2
  tauto

theorem alpha_facts (c : Char) (h : isAlphaC c = true) :
    isSpaceC c = false ∧ c ≠ ':' ∧ c ≠ ';' ∧ c ≠ '.' := by
  refine ⟨?_, ?_, ?_, ?_⟩
  · cases hs : isSpaceC c
    · rfl
    · rcases isSpaceC_cases c hs with rfl | rfl | rfl | rfl | rfl | rfl <;>
        exact absurd h (by decide)
  · intro hEq; subst hEq; exact absurd h (by decide)
  · intro hEq; subst hEq; exact absurd h (by decide)
  · intro hEq; subst hEq; exact absurd h (by decide)

theorem alnum_not_space (c : Char) (h : isAlnumC c = true) : isSpaceC c = false := by
  cases hs : isSpaceC c
  · rfl
  · rcases isSpaceC_cases c hs with rfl | rfl | rfl | rfl | rfl | rfl <;>
      exact absurd h (by decide)

theorem is_valid_label_chars (s : FPState) (label : List Char)
    (mcros : List (List Char)) (h : is_valid_label s label mcros = (s, true)) :
    isAlphaC (label.headD '\x00') = true ∧ (label.drop 1).all isAlnumC = true := by
  have h2 : (is_valid_label s label mcros).2 = true := by rw [h]
  unfold is_valid_label at h2
  split at h2
  case isTrue h1 => simp at h2
  case isFalse h1 =>
    split at h2
    case isTrue hall => simp at h2
    case isFalse hall =>
      constructor
      · cases hb : isAlphaC (label.headD '\x00')
        · rw [hb] at h1; simp at h1
        · rfl
      · cases hb : (label.drop 1).all isAlnumC
        · rw [hb] at hall; simp at hall
        · rfl

theorem takeWhile_append_all {p : Char → Bool} (l1 l2 : List Char)
    (h : ∀ c ∈ l1, p c = true) :
    (l1 ++ l2).takeWhile p = l1 ++ l2.takeWhile p := by
  induction l1 with
  | nil => simp
  | cons c tl ih =>
    rw [List.cons_append, List.takeWhile_cons, if_pos (h c (List.mem_cons_self c tl)),
      ih (fun d hd => h d (List.mem_cons_of_mem c hd))]
    rfl

theorem take31_small (t w : List Char) (hw : w.length < 31) (h : t.take 31 = w) :
    t = w := by
  have hlt : t.length = w.length := by
    have h2 := congrArg List.length h
    simp [List.length_take] at h2
    omega
  rw [← h]
  exact (List.take_of_length_le (by omega)).symm

/-- On a `.entry`/`.extern` line the pending label and flag are never
consulted: the branch taken depends only on the text after the dot. -/
theorem processRest_dot (s : FPState) (r1 label1 label2 : List Char) (f1 f2 : Bool)
    (hdir : copyFirstWord r1 (WORD_LEN + 2) = cs "entry" ∨
      copyFirstWord r1 (WORD_LEN + 2) = cs "extern")
    (hr1 : r1 ≠ []) :
    processRest s ('.' :: r1) label1 f1 = processRest s ('.' :: r1) label2 f2 := by
  rcases hdir with h | h
  · simp [processRest, h, hr1]
  · simp [processRest, h, hr1, (by decide : ¬(cs "extern" = cs "entry"))]

/-- C10: a lexically valid, non-conflicting label prefixing a `.entry` or
`.extern` line is silently discarded — the whole resulting state (symbol
table, IC, DC, error flag, diagnostics) is exactly the state produced by
the same line without the `L:` prefix. -/
theorem labeled_entry_extern_ignores_label :
    ∀ (s : FPState) (mcros : List (List Char)) (label r1 : List Char),
      is_valid_label { s with line_count := s.line_count + 1 } label mcros =
        ({ s with line_count := s.line_count + 1 }, true) →
      label.length ≤ WORD_LEN →
      (copyFirstWord r1 (WORD_LEN + 2) = cs "entry" ∨
        copyFirstWord r1 (WORD_LEN + 2) = cs "extern") →
      (label ++ ':' :: ' ' :: '.' :: r1).length ≤ VALID_LINE →
      processLine mcros s (label ++ ':' :: ' ' :: '.' :: r1) =
        processLine mcros s ('.' :: r1) := by
  intro s mcros label r1 hv hlen hdir hline
  have hr1 : r1 ≠ [] := by
    intro hEq
    subst hEq
    rcases hdir with h | h <;> exact absurd h (by decide)
  obtain ⟨hα0, hall⟩ := is_valid_label_chars _ _ _ hv
  obtain ⟨c0, ltl, rfl⟩ : ∃ c0 ltl, label = c0 :: ltl := by
    cases label with
    | nil => exact absurd hα0 (by decide)
    | cons a l => exact ⟨a, l, rfl⟩
  simp only [List.cons_append] at hline ⊢
  have hα : isAlphaC c0 = true := by simpa using hα0
  have hc0 := alpha_facts c0 hα
  have hlen2 : ltl.length + 1 ≤ 30 := by simpa [WORD_LEN] using hlen
  have hps : ∀ c ∈ c0 :: ltl, (fun c => !isSpaceC c) c = true := by
    intro c hc
    rcases List.mem_cons.mp hc with rfl | hc
    · simp [hc0.1]
    · have hcal : isAlnumC c = true := by
        have h2 : ∀ x ∈ ltl, isAlnumC x = true := by
          simpa [List.all_eq_true] using hall
        exact h2 c hc
      simp [alnum_not_space c hcal]
  have hfw1 : copyFirstWord (c0 :: (ltl ++ ':' :: ' ' :: '.' :: r1)) (WORD_LEN + 2) =
      (c0 :: ltl) ++ [':'] := by
    simp only [copyFirstWord]
    rw [show c0 :: (ltl ++ ':' :: ' ' :: '.' :: r1) =
        (c0 :: ltl) ++ (':' :: ' ' :: '.' :: r1) from rfl]
    rw [takeWhile_append_all _ _ hps]
    rw [List.takeWhile_cons, if_pos (by decide)]
    rw [List.takeWhile_cons, if_neg (by decide)]
    exact List.take_of_length_le (by simp [WORD_LEN]; omega)
  have hdel1 : deleteWhite (c0 :: (ltl ++ ':' :: ' ' :: '.' :: r1)) =
      c0 :: (ltl ++ ':' :: ' ' :: '.' :: r1) := by
    unfold deleteWhite
    rw [List.dropWhile_cons, if_neg (by rw [hc0.1]; simp)]
  have hdrop1 : (c0 :: (ltl ++ ':' :: ' ' :: '.' :: r1)).drop
      (((c0 :: ltl) ++ [':']).length) = ' ' :: '.' :: r1 := by
    rw [show c0 :: (ltl ++ ':' :: ' ' :: '.' :: r1) =
        ((c0 :: ltl) ++ [':']) ++ (' ' :: '.' :: r1) from by simp]
    exact List.drop_left _ _
  have hL1 : processLine mcros s (c0 :: (ltl ++ ':' :: ' ' :: '.' :: r1)) =
      processRest { s with line_count := s.line_count + 1 } ('.' :: r1) (c0 :: ltl) true := by
    simp only [processLine]
    rw [if_neg (by omega :
      ¬((c0 :: (ltl ++ ':' :: ' ' :: '.' :: r1)).length > VALID_LINE))]
    rw [if_neg (show ¬((c0 :: (ltl ++ ':' :: ' ' :: '.' :: r1)).headD '\x00' = ';') from by
      rw [List.headD_cons]; exact hc0.2.2.1)]
    rw [hdel1]
    rw [if_neg (show ¬((c0 :: (ltl ++ ':' :: ' ' :: '.' :: r1)).headD '\x00' = ';') from by
      rw [List.headD_cons]; exact hc0.2.2.1)]
    rw [if_neg (show ¬(c0 :: (ltl ++ ':' :: ' ' :: '.' :: r1) = []) by simp)]
    rw [hfw1]
    rw [if_pos (show 1 ≤ ((c0 :: ltl) ++ [':']).length ∧
        ((c0 :: ltl) ++ [':']).getLast? = some ':' from ⟨by simp, List.getLast?_concat _⟩)]
    rw [List.dropLast_concat]
    rw [hv]
    rw [hdrop1]
    rfl
  have hL2 : processLine mcros s ('.' :: r1) =
      processRest { s with line_count := s.line_count + 1 } ('.' :: r1) [] false := by
    have hnl2 : ¬(('.' :: r1).length > VALID_LINE) := by
      have h2 : (c0 :: (ltl ++ ':' :: ' ' :: '.' :: r1)).length ≤ VALID_LINE := hline
      simp [List.length_append] at h2 ⊢
      omega
    have hfw2 : ∃ w : List Char, copyFirstWord ('.' :: r1) (WORD_LEN + 2) = '.' :: w ∧
        ¬(1 ≤ ('.' :: w).length ∧ ('.' :: w).getLast? = some ':') := by
      rcases hdir with h | h
      · have ht : r1.takeWhile (fun c => !isSpaceC c) = cs "entry" :=
          take31_small _ _ (by decide) (by simpa [copyFirstWord, WORD_LEN] using h)
        refine ⟨cs "entry", ?_, by decide⟩
        simp only [copyFirstWord]
        rw [List.takeWhile_cons, if_pos (by decide)]
        rw [show WORD_LEN + 2 - 1 = 30 + 1 from by decide, List.take_succ_cons, ht]
        rw [List.take_of_length_le (by decide)]
      · have ht : r1.takeWhile (fun c => !isSpaceC c) = cs "extern" :=
          take31_small _ _ (by decide) (by simpa [copyFirstWord, WORD_LEN] using h)
        refine ⟨cs "extern", ?_, by decide⟩
        simp only [copyFirstWord]
        rw [List.takeWhile_cons, if_pos (by decide)]
        rw [show WORD_LEN + 2 - 1 = 30 + 1 from by decide, List.take_succ_cons, ht]
        rw [List.take_of_length_le (by decide)]
    obtain ⟨w, hw, hwcond⟩ := hfw2
    simp only [processLine]
    rw [if_neg hnl2]
    rw [if_neg (show ¬(('.' :: r1).headD '\x00' = ';') from by
      rw [List.headD_cons]; decide)]
    rw [show deleteWhite ('.' :: r1) = '.' :: r1 from by
      unfold deleteWhite
      rw [List.dropWhile_cons, if_neg (by decide)]]
    rw [if_neg (show ¬(('.' :: r1).headD '\x00' = ';') from by
      rw [List.headD_cons]; decide)]
    rw [if_neg (show ¬('.' :: r1 = []) by simp)]
    rw [hw]
    rw [if_neg hwcond]
  rw [hL1, hL2]
  exact processRest_dot _ r1 _ _ _ _ hdir hr1

/-- C10 witness: `L: .entry X` and `.entry X` produce identical states from
the initial one. -/
theorem labeled_entry_extern_ignores_label_witness :
    processLine [] initFP (cs "L" ++ ':' :: ' ' :: '.' :: cs "entry X") =
      processLine [] initFP ('.' :: cs "entry X") :=
  labeled_entry_extern_ignores_label initFP [] (cs "L") (cs "entry X")
    (by decide) (by decide) (Or.inl (by decide)) (by decide)

end Assembler
